import Mathlib

set_option maxRecDepth 20000

/-!
# Verification of `update_ddns.py` (victorphan03/update_cloudflare_ddns)

A shallow embedding of the dynamic DNS updater in `src/update_ddns.py`.

* JSON documents are modelled by the mutual inductives `Json` / `JsonArr` /
  `JsonObj` (arrays and objects as their own spines, so that every function
  below is structurally recursive and computes by kernel reduction).  The
  configuration store (`read_config` / `write_config` in the script) goes
  through the standard-library `json` module; `json_dumps` below models
  `json.dump(config, f, indent=4)` (pretty printing with a four-space
  indent and `ensure_ascii` escaping) and `json_loads` models `json.load`
  (whitespace-insensitive parsing; numeric literals are restricted to the
  integers, which is all a configuration document ever holds).
* The HTTP collaborators (Cloudflare API, ipify, the DNS resolver) are
  modelled by environments recording the outcome of each outbound call;
  the functions of the script are translated into Lean functions over
  those environments which return the list of provider API calls they
  issue together with the Python exception they raise, when such an
  exception escapes every `except` clause of the script.
-/

mutual

/-- A JSON value as the script manipulates it.  Numeric values are kept as
integers: every number a configuration document holds (`update_interval`,
`ttl`) is integral, and the renderer below therefore only ever prints
integer literals. -/
inductive Json where
  | null
  | bool (b : Bool)
  | int (n : Int)
  | str (s : String)
  | arr (items : JsonArr)
  | obj (entries : JsonObj)

/-- The item spine of a JSON array. -/
inductive JsonArr where
  | nil
  | cons (head : Json) (tail : JsonArr)

/-- The member spine of a JSON object: insertion-ordered key/value pairs,
as a Python dict holds them. -/
inductive JsonObj where
  | nil
  | cons (key : String) (value : Json) (tail : JsonObj)

end

/-- Build an array value from a Lean list. -/
def JsonArr.ofList : List Json → JsonArr
  | [] => JsonArr.nil
  | v :: vs => JsonArr.cons v (JsonArr.ofList vs)

/-- Build an object value from a Lean pair list (keys assumed fresh in order). -/
def JsonObj.ofList : List (String × Json) → JsonObj
  | [] => JsonObj.nil
  | (k, v) :: rest => JsonObj.cons k v (JsonObj.ofList rest)

/-- Array value from a list, for readable concrete documents. -/
def jarr (items : List Json) : Json := Json.arr (JsonArr.ofList items)

/-- Object value from a pair list, for readable concrete documents. -/
def jobj (entries : List (String × Json)) : Json := Json.obj (JsonObj.ofList entries)

/-- The insertion-ordered keys of an object. -/
def JsonObj.keys : JsonObj → List String
  | JsonObj.nil => []
  | JsonObj.cons k _ rest => k :: JsonObj.keys rest

/-- Python dict lookup, `d.get(key)`: the value stored at `key`, if any. -/
def JsonObj.get : JsonObj → String → Option Json
  | JsonObj.nil, _ => none
  | JsonObj.cons k v rest, key => if k = key then some v else JsonObj.get rest key

/-- Python dict assignment, `d[key] = value`: an existing key keeps its position
and gets the new value, a new key is appended. -/
def JsonObj.set : JsonObj → String → Json → JsonObj
  | JsonObj.nil, key, value => JsonObj.cons key value JsonObj.nil
  | JsonObj.cons k v rest, key, value =>
      if k = key then JsonObj.cons k value rest
      else JsonObj.cons k v (JsonObj.set rest key value)

/-- Building a Python dict from a pair list (what `json.load` does with the
parsed members of an object): every pair is inserted in order, so a
duplicated key keeps its first position and its last value. -/
def pyDictOf1 (acc : JsonObj) : List (String × Json) → JsonObj
  | [] => acc
  | (k, v) :: rest => pyDictOf1 (JsonObj.set acc k v) rest

/-- Python's `dict(pairs)`, inserting left to right into an empty dict. -/
def pyDictOf (pairs : List (String × Json)) : JsonObj := pyDictOf1 JsonObj.nil pairs

/-- Python truthiness (`if not config:`, `if public_ip:`, …) restricted to
JSON-representable values: `None`, `False`, `0`, `""`, `[]` and `{}` are
falsy, everything else is truthy. -/
def pyTruthy : Json → Bool
  | Json.null => false
  | Json.bool b => b
  | Json.int n => n != 0
  | Json.str s => !s.isEmpty
  | Json.arr JsonArr.nil => false
  | Json.arr (JsonArr.cons _ _) => true
  | Json.obj JsonObj.nil => false
  | Json.obj (JsonObj.cons _ _ _) => true

/-! ## Rendering: `json.dump(config, f, indent=4)`

CPython with `indent=4` separates items with `','` and a key from its value
with `': '`, puts a newline plus `4 * depth` spaces of indentation before
every item and before a closing bracket, and escapes every character
outside `0x20`–`0x7e` (plus `"` and `\`) with `ensure_ascii` `\uXXXX`
sequences (a surrogate pair for the astral plane). -/

/-- The decimal digit character for `k < 10`. -/
def decDigit (k : Nat) : Char := Char.ofNat (k + 48)

/-- The lowercase hexadecimal digit character for `k < 16`. -/
def hexDigit (k : Nat) : Char :=
  if k < 10 then Char.ofNat (k + 48) else Char.ofNat (k + 87)

/-- The four lowercase hex digits of `n < 0x10000`, as in Python's
percent-format of `n` with `04x`. -/
def hex4 (n : Nat) : List Char :=
  [hexDigit (n / 4096 % 16), hexDigit (n / 256 % 16), hexDigit (n / 16 % 16), hexDigit (n % 16)]

/-- Decimal digit characters (most significant first), with enough fuel;
`natChars` instantiates the fuel so that it never runs out. -/
def natCharsGo (fuel : Nat) (n : Nat) : List Char :=
  match fuel with
  | 0 => [decDigit (n % 10)]
  | fuel + 1 =>
      if n < 10 then [decDigit n] else natCharsGo fuel (n / 10) ++ [decDigit (n % 10)]

/-- Decimal digits of a natural number, most significant first. -/
def natChars (n : Nat) : List Char := natCharsGo n n

/-- Characters of an integer literal as Python prints one. -/
def intChars (n : Int) : List Char :=
  if n < 0 then '-' :: natChars n.natAbs else natChars n.natAbs

/-- One character of a string value, escaped as CPython's
`py_encode_basestring_ascii` escapes it: `\` and `"` get a backslash,
the five short escapes cover `\b \t \n \f \r`, every other character
outside `0x20`–`0x7e` becomes `\uXXXX` (two of them, a surrogate pair,
beyond `0xffff`), and the printable ASCII range stays itself. -/
def escapeChar (c : Char) : List Char :=
  if c = '\\' then ['\\', '\\']
  else if c = '"' then ['\\', '"']
  else if c = Char.ofNat 8 then ['\\', 'b']
  else if c = Char.ofNat 9 then ['\\', 't']
  else if c = Char.ofNat 10 then ['\\', 'n']
  else if c = Char.ofNat 12 then ['\\', 'f']
  else if c = Char.ofNat 13 then ['\\', 'r']
  else if c.toNat < 32 then '\\' :: 'u' :: hex4 c.toNat
  else if c.toNat < 127 then [c]
  else if c.toNat < 65536 then '\\' :: 'u' :: hex4 c.toNat
  else
    let s := c.toNat - 65536
    '\\' :: 'u' :: hex4 (55296 + s / 1024) ++ '\\' :: 'u' :: hex4 (56320 + s % 1024)

/-- A whole string body, escaped character by character. -/
def escapeChars : List Char → List Char
  | [] => []
  | c :: cs => escapeChar c ++ escapeChars cs

/-- A quoted JSON string literal. -/
def strChars (s : String) : List Char :=
  '"' :: (escapeChars s.data ++ ['"'])

/-- The `4 * d` spaces of indentation at nesting depth `d`. -/
def indentAt (d : Nat) : List Char := List.replicate (4 * d) ' '

mutual

/-- The characters `json.dump(v, f, indent=4)` writes for `v` at depth `d`. -/
def renderVal (d : Nat) : Json → List Char
  | Json.null => ['n', 'u', 'l', 'l']
  | Json.bool true => ['t', 'r', 'u', 'e']
  | Json.bool false => ['f', 'a', 'l', 's', 'e']
  | Json.int n => intChars n
  | Json.str s => strChars s
  | Json.arr JsonArr.nil => ['[', ']']
  | Json.arr (JsonArr.cons x xs) =>
      '[' :: '\n' :: (renderItems d (JsonArr.cons x xs) ++ '\n' :: (indentAt d ++ [']']))
  | Json.obj JsonObj.nil => ['{', '}']
  | Json.obj (JsonObj.cons k v es) =>
      '{' :: '\n' :: (renderEntries d (JsonObj.cons k v es) ++ '\n' :: (indentAt d ++ ['}']))

/-- The comma-and-newline separated items of a non-empty array
(the `nil` case is unreachable: an empty array renders as `[]` above). -/
def renderItems (d : Nat) : JsonArr → List Char
  | JsonArr.nil => []
  | JsonArr.cons x JsonArr.nil => indentAt (d + 1) ++ renderVal (d + 1) x
  | JsonArr.cons x (JsonArr.cons y ys) =>
      indentAt (d + 1) ++ renderVal (d + 1) x ++
        ',' :: '\n' :: renderItems d (JsonArr.cons y ys)

/-- The comma-and-newline separated members of a non-empty object
(the `nil` case is unreachable: an empty object renders as braces above). -/
def renderEntries (d : Nat) : JsonObj → List Char
  | JsonObj.nil => []
  | JsonObj.cons k v JsonObj.nil =>
      indentAt (d + 1) ++ strChars k ++ ':' :: ' ' :: renderVal (d + 1) v
  | JsonObj.cons k v (JsonObj.cons k2 v2 es) =>
      indentAt (d + 1) ++ strChars k ++ ':' :: ' ' :: renderVal (d + 1) v ++
        ',' :: '\n' :: renderEntries d (JsonObj.cons k2 v2 es)

end

/-- Serialization, `json.dumps(v, indent=4)`: the serialized document. -/
def json_dumps (v : Json) : String := String.mk (renderVal 0 v)

/-! ## Parsing: `json.load` -/

/-- JSON whitespace. -/
def isJsonWs (c : Char) : Bool := c = ' ' || c = '\t' || c = '\n' || c = '\r'

/-- Drop leading JSON whitespace. -/
def dropWs : List Char → List Char
  | [] => []
  | c :: cs => if isJsonWs c then dropWs cs else c :: cs

/-- Is this a decimal digit character? -/
def isDecDigit (c : Char) : Bool := 48 ≤ c.toNat && c.toNat ≤ 57

/-- The value of a hexadecimal digit character, upper or lower case. -/
def hexVal (c : Char) : Option Nat :=
  if 48 ≤ c.toNat && c.toNat ≤ 57 then some (c.toNat - 48)
  else if 97 ≤ c.toNat && c.toNat ≤ 102 then some (c.toNat - 87)
  else if 65 ≤ c.toNat && c.toNat ≤ 70 then some (c.toNat - 55)
  else none

/-- The value of four hexadecimal digit characters. -/
def hexVal4 (a b c d : Char) : Option Nat :=
  match hexVal a, hexVal b, hexVal c, hexVal d with
  | some va, some vb, some vc, some vd => some (((va * 16 + vb) * 16 + vc) * 16 + vd)
  | _, _, _, _ => none

/-- Digits of a decimal numeral, folded into the accumulator. -/
def readNat (acc : Nat) : List Char → Nat × List Char
  | [] => (acc, [])
  | c :: cs =>
      if isDecDigit c then readNat (acc * 10 + (c.toNat - 48)) cs else (acc, c :: cs)

/-- An integer numeral: an optional minus sign and at least one digit.
`json.load` also accepts fractional and exponent parts (floats); they never
occur in a configuration document and are not modelled. -/
def readInt : List Char → Option (Int × List Char)
  | [] => none
  | c :: cs =>
      if c = '-' then
        match cs with
        | [] => none
        | c2 :: _ =>
            if isDecDigit c2 then
              some (-((readNat 0 cs).1 : Int), (readNat 0 cs).2)
            else none
      else if isDecDigit c then
        some (((readNat 0 (c :: cs)).1 : Int), (readNat 0 (c :: cs)).2)
      else none

/-- The one-character escapes of `json.load`. -/
def shortEscape : Char → Option Char
  | '"' => some '"'
  | '\\' => some '\\'
  | '/' => some '/'
  | 'b' => some (Char.ofNat 8)
  | 'f' => some (Char.ofNat 12)
  | 'n' => some (Char.ofNat 10)
  | 'r' => some (Char.ofNat 13)
  | 't' => some (Char.ofNat 9)
  | _ => none

/-- The scalar value of a surrogate pair. -/
def surrogateJoin (hi lo : Nat) : Char :=
  Char.ofNat (65536 + (hi - 55296) * 1024 + (lo - 56320))

/-- The body of a string literal, after its opening quote, as
`json.load`'s `scanstring` reads it: plain characters and backslash
escapes up to the closing quote, a high `\uXXXX` surrogate joining with a
following low one.  A lone surrogate escape is rejected here where Python
would produce a lone-surrogate `str` that no sequence of unicode scalar
values represents; the renderer above never emits one. -/
def readStrBody : List Char → Option (List Char × List Char)
  | [] => none
  | '"' :: rest => some ([], rest)
  | '\\' :: 'u' :: a :: b :: c :: d :: rest =>
      match hexVal4 a b c d with
      | none => none
      | some u =>
          if 55296 ≤ u ∧ u ≤ 56319 then
            match rest with
            | '\\' :: 'u' :: a2 :: b2 :: c2 :: d2 :: rest2 =>
                match hexVal4 a2 b2 c2 d2 with
                | none => none
                | some u2 =>
                    if 56320 ≤ u2 ∧ u2 ≤ 57343 then
                      match readStrBody rest2 with
                      | none => none
                      | some (s, r) => some (surrogateJoin u u2 :: s, r)
                    else none
            | _ => none
          else if 56320 ≤ u ∧ u ≤ 57343 then none
          else
            match readStrBody rest with
            | none => none
            | some (s, r) => some (Char.ofNat u :: s, r)
  | '\\' :: e :: rest =>
      match shortEscape e with
      | none => none
      | some ch =>
          match readStrBody rest with
          | none => none
          | some (s, r) => some (ch :: s, r)
  | c :: rest =>
      match readStrBody rest with
      | none => none
      | some (s, r) => some (c :: s, r)

mutual

/-- One JSON value, leading whitespace allowed (fuel-bounded recursion). -/
def readVal : Nat → List Char → Option (Json × List Char)
  | 0, _ => none
  | fuel + 1, cs =>
      match dropWs cs with
      | 'n' :: 'u' :: 'l' :: 'l' :: r => some (Json.null, r)
      | 't' :: 'r' :: 'u' :: 'e' :: r => some (Json.bool true, r)
      | 'f' :: 'a' :: 'l' :: 's' :: 'e' :: r => some (Json.bool false, r)
      | '"' :: r =>
          match readStrBody r with
          | none => none
          | some (s, r2) => some (Json.str (String.mk s), r2)
      | '[' :: r =>
          match dropWs r with
          | ']' :: r2 => some (Json.arr JsonArr.nil, r2)
          | _ =>
              match readItems fuel r with
              | none => none
              | some (xs, r2) => some (Json.arr xs, r2)
      | '{' :: r =>
          match dropWs r with
          | '}' :: r2 => some (Json.obj JsonObj.nil, r2)
          | _ =>
              match readEntries fuel r with
              | none => none
              | some (es, r2) => some (Json.obj (pyDictOf es), r2)
      | c :: r =>
          if c = '-' || isDecDigit c then
            match readInt (c :: r) with
            | none => none
            | some (n, r2) => some (Json.int n, r2)
          else none
      | [] => none

/-- One or more comma-separated array items, up to the closing bracket. -/
def readItems : Nat → List Char → Option (JsonArr × List Char)
  | 0, _ => none
  | fuel + 1, cs =>
      match readVal fuel cs with
      | none => none
      | some (v, r) =>
          match dropWs r with
          | ',' :: r2 =>
              match readItems fuel r2 with
              | none => none
              | some (xs, r3) => some (JsonArr.cons v xs, r3)
          | ']' :: r2 => some (JsonArr.cons v JsonArr.nil, r2)
          | _ => none

/-- One or more comma-separated object members, up to the closing brace,
as the key/value pairs handed to `dict(...)`. -/
def readEntries : Nat → List Char → Option (List (String × Json) × List Char)
  | 0, _ => none
  | fuel + 1, cs =>
      match dropWs cs with
      | '"' :: r =>
          match readStrBody r with
          | none => none
          | some (k, r1) =>
              match dropWs r1 with
              | ':' :: r2 =>
                  match readVal fuel r2 with
                  | none => none
                  | some (v, r3) =>
                      match dropWs r3 with
                      | ',' :: r4 =>
                          match readEntries fuel r4 with
                          | none => none
                          | some (es, r5) => some ((String.mk k, v) :: es, r5)
                      | '}' :: r4 => some ([(String.mk k, v)], r4)
                      | _ => none
              | _ => none
      | _ => none

end

/-- Parsing, `json.loads(text)`: parse a complete document, `none` when Python would
raise `json.JSONDecodeError`. -/
def json_loads (text : String) : Option Json :=
  match readVal (text.length + 1) text.data with
  | none => none
  | some (v, rest) => if dropWs rest = [] then some v else none

/-! ## The configuration store: `read_config` / `write_config`

The file system is modelled by the content of `config.json`: an
`Option String` that is `none` when the file does not exist.  `read_config`
returns `None` (here `none`) both for a missing file and for malformed
JSON, as the script's two `except` clauses do. -/

/-- Loading, `read_config(path)`: parse the file's JSON, `none` on a missing file or
a parse error (both are logged and swallowed in the script). -/
def read_config (file : Option String) : Option Json :=
  match file with
  | none => none
  | some text => json_loads text

/-- Saving, `write_config(path, config)`: the file now holds
`json.dump(config, f, indent=4)`. -/
def write_config (config : Json) : Option String :=
  some (json_dumps config)

/-! ## The provider client and the sync (`Syncing` state) -/

/-- A Python exception that escaped every `except` clause on its way out of
a function of the script. -/
inductive PyExn where
  | keyError
  | typeError
  | attributeError
deriving DecidableEq

/-- One record of the Cloudflare list response, by the only field the sync
reads from it: `record["name"]`. -/
structure ARecord where
  name : String

/-- Outcome of the one `GET …/dns_records?type=A` that
`get_all_a_records` issues: `none` for a transport error, an HTTP error
status or a malformed JSON body (all three `except` clauses return `[]`),
`some records` for a parsed response (`.get("result", [])`). -/
structure SyncEnv where
  listResponse : Option (List ARecord)

/-- Listing, `get_all_a_records(zone_id, api_token)`: the parsed record list, or
`[]` when any of the three `except` clauses fired. -/
def get_all_a_records (env : SyncEnv) : List ARecord :=
  match env.listResponse with
  | none => []
  | some records => records

/-- The label computation `record["name"].split('.')[0]`: the characters before the first dot
(the whole string when there is no dot). -/
def splitFirstLabel (s : String) : String :=
  String.mk (s.data.takeWhile (fun c => c ≠ '.'))

/-- The `dns_records` value the sync builds:
`[{"record_name": record["name"].split('.')[0]} for record in records]`. -/
def dnsRecordsOf (records : List ARecord) : JsonArr :=
  JsonArr.ofList (records.map (fun r => jobj [("record_name", Json.str (splitFirstLabel r.name))]))

/-- The sync, `update_config_with_a_records(config_file_path, zone_id, api_token)`:
re-read the config file, replace its `dns_records` with the provider's A
records, write it back.  A missing or falsy config returns without
writing; a truthy non-dict config would raise `TypeError` on the
subscript assignment. -/
def update_config_with_a_records (env : SyncEnv) (file : Option String) :
    Except PyExn (Option String) :=
  match read_config file with
  | none => Except.ok file
  | some config =>
      if pyTruthy config = false then Except.ok file
      else
        match config with
        | Json.obj entries =>
            Except.ok (write_config (Json.obj (JsonObj.set entries "dns_records"
              (Json.arr (dnsRecordsOf (get_all_a_records env))))))
        | _ => Except.error PyExn.typeError

/-! ## The polling cycle (`Polling` state)

The outcome of every outbound call a cycle can make is recorded in a
`PollEnv`; the embedded functions return the Cloudflare API calls they
issue in order, together with the Python exception that escapes the
function, if one does. -/

/-- Outcome of one HTTP request: `failure` covers a transport error and a
`raise_for_status` error status (both are `requests.exceptions.`
`RequestException`, which the script catches); `success body` is a
2xx response with the given JSON body. -/
inductive HttpJson where
  | failure
  | success (body : Json)

/-- Outcomes of the outbound calls of one polling cycle, keyed by the
argument the script passes: the ipify response, the record-id lookup
outcome per full record name (`none` covers a caught request/JSON error
and a name with no match, all of which `get_record_id` turns into
`None`), the DNS resolution per name (`none` is `socket.gaierror`), the
response of the detail `GET …/dns_records/{record_id}` per record id
(which `get_record_details` then reads `ttl`/`proxied` from, or raises
on), and the PUT response per record id. -/
structure PollEnv where
  ipResponse : HttpJson
  recordId : String → Option String
  resolve : String → Option String
  details : String → HttpJson
  putResponse : String → HttpJson

/-- The detail fetch, `get_record_details(zone_id, record_id, api_token)`, applied to
the response of its GET: a caught `RequestException` (transport error or
error status) returns `(None, None)`; on a 2xx body the function runs
`response.json().get("result", {})` and then `record.get("ttl"),
record.get("proxied")` with only `except requests.exceptions.`
`RequestException` around them, so a body that is valid JSON but not an
object — or a present `"result"` value that is not an object (a list, a
string, a number, a boolean or `null`, on each of which `.get` is a
missing attribute) — raises an `AttributeError` the function does not
catch. -/
def get_record_details (resp : HttpJson) : Except PyExn (Option Json × Option Json) :=
  match resp with
  | HttpJson.failure => Except.ok (none, none)
  | HttpJson.success body =>
      match body with
      | Json.obj es =>
          match JsonObj.get es "result" with
          | none => Except.ok (none, none)
          | some (Json.obj res) =>
              Except.ok (JsonObj.get res "ttl", JsonObj.get res "proxied")
          | some _ => Except.error PyExn.attributeError
      | _ => Except.error PyExn.attributeError

/-- IP discovery, `get_public_ip()`: `None` on a caught `RequestException`, otherwise
`response.json()['ip']` — a subscript that raises `KeyError` when the
parsed body has no `'ip'` key (and `TypeError` on a non-dict body),
neither of which the function catches. -/
def get_public_ip (env : PollEnv) : Except PyExn (Option Json) :=
  match env.ipResponse with
  | HttpJson.failure => Except.ok none
  | HttpJson.success body =>
      match body with
      | Json.obj entries =>
          match JsonObj.get entries "ip" with
          | some v => Except.ok (some v)
          | none => Except.error PyExn.keyError
      | _ => Except.error PyExn.typeError

/-- One Cloudflare API call issued during a cycle: the record-listing GET
of `get_record_id`, the detail GET of `get_record_details`, or the
record-replacing PUT of `update_cloudflare_dns` with the full body the
script sends (`type`, `name`, `content`, `ttl`, `proxied`). -/
inductive ApiCall where
  | recordLookup (record_name : String)
  | detailsFetch (record_id : String)
  | putRecord (record_id : String) (record_name : String) (rtype : String)
      (content : Json) (ttl : Json) (proxied : Json)

/-- Is this call the record-replacing PUT? -/
def ApiCall.isPut : ApiCall → Bool
  | ApiCall.putRecord _ _ _ _ _ _ => true
  | _ => false

/-- The PUT requests among a cycle's calls. -/
def putsOf (calls : List ApiCall) : List ApiCall := calls.filter ApiCall.isPut

/-- The update, `update_cloudflare_dns(zone_id, record_id, record_name, new_ip,
api_token)`: fetch `(ttl, proxied)` via `get_record_details` (whose GET
is issued before any exception it raises can escape through here); if
either field is `None`, log and return without a PUT; otherwise PUT the
full record body and read `result["success"]` from the response — a
subscript that raises `KeyError`/`TypeError` on a body without that key,
which the function's `except requests.exceptions.RequestException`
clause does not catch. -/
def update_cloudflare_dns (env : PollEnv) (record_id record_name : String) (new_ip : Json) :
    List ApiCall × Option PyExn :=
  match get_record_details (env.details record_id) with
  | Except.error e => ([ApiCall.detailsFetch record_id], some e)
  | Except.ok (some ttl, some proxied) =>
      let calls := [ApiCall.detailsFetch record_id,
        ApiCall.putRecord record_id record_name "A" new_ip ttl proxied]
      match env.putResponse record_id with
      | HttpJson.failure => (calls, none)
      | HttpJson.success body =>
          match body with
          | Json.obj entries =>
              match JsonObj.get entries "success" with
              | some _ => (calls, none)
              | none => (calls, some PyExn.keyError)
          | _ => (calls, some PyExn.typeError)
  | Except.ok _ => ([ApiCall.detailsFetch record_id], none)

/-- The fixed root domain baked into `main`. -/
def domain_name : String := "victorphan.net"

/-- Python's `str()` of a JSON-representable value, as the f-string
building `record_name` applies it.  Scalars are exact (`None`, `True`,
`False`, the decimal integer, the string itself); for a list or dict
Python uses `repr` formatting, approximated here by the JSON rendering —
no configuration entry a claim touches holds a container there. -/
def pyFStr : Json → String
  | Json.null => "None"
  | Json.bool true => "True"
  | Json.bool false => "False"
  | Json.int n => toString n
  | Json.str s => s
  | Json.arr items => String.mk (renderVal 0 (Json.arr items))
  | Json.obj entries => String.mk (renderVal 0 (Json.obj entries))

/-- Python `current_dns_ip == public_ip` where the left side is a `str`:
true exactly on an equal string (values of other types are never equal to
a `str`). -/
def pyStrEq (s : String) (v : Json) : Bool :=
  match v with
  | Json.str t => s = t
  | _ => false

/-- One iteration of `for record in dns_records:` in `main`, given the
public IP: read `record.get("record_name")` (an `AttributeError` on a
non-dict entry), skip a falsy subdomain, look the record id up
(`continue` when falsy), resolve the name and compare against the public
IP, updating on a mismatch or on a resolution failure. -/
def processRecord (env : PollEnv) (record : Json) (public_ip : Json) :
    List ApiCall × Option PyExn :=
  match record with
  | Json.obj entries =>
      match JsonObj.get entries "record_name" with
      | none => ([], none)
      | some subdomain =>
          if pyTruthy subdomain = false then ([], none)
          else
            let record_name := pyFStr subdomain ++ "." ++ domain_name
            match env.recordId record_name with
            | none => ([ApiCall.recordLookup record_name], none)
            | some record_id =>
                if record_id = "" then ([ApiCall.recordLookup record_name], none)
                else
                  match env.resolve record_name with
                  | some current_dns_ip =>
                      if pyStrEq current_dns_ip public_ip then
                        ([ApiCall.recordLookup record_name], none)
                      else
                        match update_cloudflare_dns env record_id record_name public_ip with
                        | (ucalls, exn) => (ApiCall.recordLookup record_name :: ucalls, exn)
                  | none =>
                      match update_cloudflare_dns env record_id record_name public_ip with
                      | (ucalls, exn) => (ApiCall.recordLookup record_name :: ucalls, exn)
  | _ => ([], some PyExn.attributeError)

/-- The whole `for record in dns_records:` loop: records are processed in
order; an uncaught exception aborts the cycle at the record that raised
it. -/
def processRecords (env : PollEnv) (records : List Json) (public_ip : Json) :
    List ApiCall × Option PyExn :=
  match records with
  | [] => ([], none)
  | r :: rest =>
      match processRecord env r public_ip with
      | (calls, some e) => (calls, some e)
      | (calls, none) =>
          match processRecords env rest public_ip with
          | (more, exn) => (calls ++ more, exn)

/-- The items of an array value, as a Lean list. -/
def JsonArr.toList : JsonArr → List Json
  | JsonArr.nil => []
  | JsonArr.cons v vs => v :: JsonArr.toList vs

/-- One iteration of the `while True:` loop in `main`: fetch the public
IP (skipping the whole iteration when it is falsy), then run every
managed record.  Iterating a non-list `dns_records` value follows
Python: a string yields its characters and a dict its keys (either hits
`record.get` with a non-dict and raises `AttributeError` unless empty),
anything else raises `TypeError`. -/
def pollCycle (env : PollEnv) (dns_records : Json) : List ApiCall × Option PyExn :=
  match get_public_ip env with
  | Except.error e => ([], some e)
  | Except.ok none => ([], none)
  | Except.ok (some public_ip) =>
      if pyTruthy public_ip = false then ([], none)
      else
        match dns_records with
        | Json.arr items => processRecords env items.toList public_ip
        | Json.str s => if s.isEmpty then ([], none) else ([], some PyExn.attributeError)
        | Json.obj JsonObj.nil => ([], none)
        | Json.obj (JsonObj.cons _ _ _) => ([], some PyExn.attributeError)
        | _ => ([], some PyExn.typeError)

/-- Is an optional value truthy (`None` is falsy)? -/
def optTruthy : Option Json → Bool
  | none => false
  | some v => pyTruthy v

/-- The body of `main()` up to the `while True:` loop: read the config (returning on a
missing/falsy one), extract `cloudflare_zone_id`, `cloudflare_api_token`
and `dns_records` (returning unless all are truthy), run the one-time
sync, and enter the loop.  The result is `none` for an early return, or
the pair of the config file content after the sync and the in-memory
`dns_records` value over which **every** subsequent `pollCycle` iterates
— the value extracted from the config as read *before* the sync. -/
def main_before_loop (env : SyncEnv) (file : Option String) :
    Except PyExn (Option (Option String × Json)) :=
  match read_config file with
  | none => Except.ok none
  | some config =>
      if pyTruthy config = false then Except.ok none
      else
        match config with
        | Json.obj entries =>
            let zone_id := JsonObj.get entries "cloudflare_zone_id"
            let api_token := JsonObj.get entries "cloudflare_api_token"
            let dns_records := (JsonObj.get entries "dns_records").getD (Json.arr JsonArr.nil)
            if optTruthy zone_id && optTruthy api_token && pyTruthy dns_records then
              match update_config_with_a_records env file with
              | Except.error e => Except.error e
              | Except.ok file2 => Except.ok (some (file2, dns_records))
            else Except.ok none
        | _ => Except.error PyExn.attributeError

/-! ## Well-formed documents and auxiliary definitions for the claims -/

/-- No entry of the object uses this key. -/
def keyAbsent : JsonObj → String → Bool
  | JsonObj.nil, _ => true
  | JsonObj.cons k _ rest, key => (k != key) && keyAbsent rest key

/-- All keys of the object are distinct. -/
def keysFresh : JsonObj → Bool
  | JsonObj.nil => true
  | JsonObj.cons k _ rest => keyAbsent rest k && keysFresh rest

mutual

/-- A well-formed document: every object (at any depth) has distinct keys
— what any value that lives in Python dicts satisfies by construction. -/
def wfJson : Json → Bool
  | Json.null => true
  | Json.bool _ => true
  | Json.int _ => true
  | Json.str _ => true
  | Json.arr items => wfArr items
  | Json.obj entries => keysFresh entries && wfObj entries

/-- All items of an array are well formed. -/
def wfArr : JsonArr → Bool
  | JsonArr.nil => true
  | JsonArr.cons v vs => wfJson v && wfArr vs

/-- All values of an object are well formed. -/
def wfObj : JsonObj → Bool
  | JsonObj.nil => true
  | JsonObj.cons _ v rest => wfJson v && wfObj rest

end

/-- Modelled from the spec: the subdomain label obtained "by stripping the
root domain suffix from the provider's full record name" — drop a trailing
`"." ++ root` when present. -/
def stripRootSuffix (root full : String) : String :=
  if ("." ++ root).data.isSuffixOf full.data then
    String.mk (full.data.take (full.data.length - (root.data.length + 1)))
  else full

/-- A configuration document with one managed record, `home`. -/
def cfgHome : Json :=
  jobj [("cloudflare_zone_id", Json.str "z1"), ("cloudflare_api_token", Json.str "tok"),
    ("dns_records", jarr [jobj [("record_name", Json.str "home")]])]

/-- The document `cfgHome` after a sync that saw an empty (or failed) record listing. -/
def cfgHomeSynced : Json :=
  jobj [("cloudflare_zone_id", Json.str "z1"), ("cloudflare_api_token", Json.str "tok"),
    ("dns_records", jarr [])]

/-- A configuration document whose managed record is `old`. -/
def cfgOld : Json :=
  jobj [("cloudflare_zone_id", Json.str "z1"), ("cloudflare_api_token", Json.str "tok"),
    ("dns_records", jarr [jobj [("record_name", Json.str "old")]])]

/-- The document `cfgOld` after a sync that listed exactly `new.victorphan.net`. -/
def cfgNew : Json :=
  jobj [("cloudflare_zone_id", Json.str "z1"), ("cloudflare_api_token", Json.str "tok"),
    ("dns_records", jarr [jobj [("record_name", Json.str "new")]])]

/-- A polling environment: the IP service answers `1.2.3.4`; `home` is a
known record resolving to a stale `1.2.3.3`, `lost` is known but fails to
resolve, `broken` is known but its detail fetch yields nothing, `gone` has
no record id; every PUT is answered with a success body. -/
def envA : PollEnv :=
  { ipResponse := HttpJson.success (jobj [("ip", Json.str "1.2.3.4")])
    recordId := fun n =>
      if n = "home.victorphan.net" then some "rid1"
      else if n = "lost.victorphan.net" then some "rid2"
      else if n = "broken.victorphan.net" then some "rid3"
      else none
    resolve := fun n => if n = "home.victorphan.net" then some "1.2.3.3" else none
    details := fun i =>
      if i = "rid1" then
        HttpJson.success (jobj [("result",
          jobj [("ttl", Json.int 300), ("proxied", Json.bool false)])])
      else if i = "rid2" then
        HttpJson.success (jobj [("result",
          jobj [("ttl", Json.int 120), ("proxied", Json.bool true)])])
      else HttpJson.failure
    putResponse := fun _ => HttpJson.success (jobj [("success", Json.bool true)]) }

/-- The entries of `cfgHome`, for stating what the sync writes. -/
def cfgHomeEntries : JsonObj :=
  JsonObj.ofList [("cloudflare_zone_id", Json.str "z1"), ("cloudflare_api_token", Json.str "tok"),
    ("dns_records", jarr [jobj [("record_name", Json.str "home")]])]

/-- The entries of `cfgOld`, for stating what the sync writes. -/
def cfgOldEntries : JsonObj :=
  JsonObj.ofList [("cloudflare_zone_id", Json.str "z1"), ("cloudflare_api_token", Json.str "tok"),
    ("dns_records", jarr [jobj [("record_name", Json.str "old")]])]

/-- A sync environment whose provider lists exactly `new.victorphan.net`. -/
def syncNew : SyncEnv := { listResponse := some [{ name := "new.victorphan.net" }] }

/-- A polling environment in which every record-id lookup comes back
empty (so a cycle only ever issues lookup GETs). -/
def envNoop : PollEnv :=
  { ipResponse := HttpJson.success (jobj [("ip", Json.str "1.2.3.4")])
    recordId := fun _ => none
    resolve := fun _ => none
    details := fun _ => HttpJson.failure
    putResponse := fun _ => HttpJson.failure }

/-- Does a numeral stop here?  True when the remaining input is empty or
starts with a non-digit (every delimiter the renderer emits after a
number: a comma, a newline, a closing bracket, or the end of input). -/
def numStop : List Char → Bool
  | [] => true
  | c :: _ => !isDecDigit c

/-- The key/value pairs of an object, in order. -/
def JsonObj.toPairs : JsonObj → List (String × Json)
  | JsonObj.nil => []
  | JsonObj.cons k v rest => (k, v) :: JsonObj.toPairs rest

/-- Concatenation of two objects' entry spines. -/
def JsonObj.append : JsonObj → JsonObj → JsonObj
  | JsonObj.nil, o => o
  | JsonObj.cons k v rest, o => JsonObj.cons k v (JsonObj.append rest o)

/-! ## Theorems -/

/-- When the detail fetch yields both fields, the calls of
`update_cloudflare_dns` are the detail GET followed by one PUT carrying
exactly those fields, whatever the PUT response is. -/
theorem update_cloudflare_dns_fst (env : PollEnv) (rid name : String) (ip t p : Json)
    (h : get_record_details (env.details rid) = Except.ok (some t, some p)) :
    (update_cloudflare_dns env rid name ip).1 =
      [ApiCall.detailsFetch rid, ApiCall.putRecord rid name "A" ip t p] := by
  simp only [update_cloudflare_dns, h]
  cases env.putResponse rid with
  | failure => rfl
  | success body =>
      cases body with
      | obj entries =>
          dsimp only
          cases JsonObj.get entries "success" <;> rfl
      | null => rfl
      | bool b => rfl
      | int n => rfl
      | str s => rfl
      | arr items => rfl

/-- C9: if the detail fetch fails to yield both a ttl and a proxied value
(it returns a pair with either component `None`), the update operation
issues no PUT at all for that record in that cycle: its only call is the
detail GET, and it returns without raising. -/
theorem C9_details_failure_no_put (env : PollEnv) (rid name : String) (ip : Json)
    (tp : Option Json × Option Json)
    (hd : get_record_details (env.details rid) = Except.ok tp)
    (h : tp.1 = none ∨ tp.2 = none) :
    update_cloudflare_dns env rid name ip = ([ApiCall.detailsFetch rid], none) ∧
    putsOf (update_cloudflare_dns env rid name ip).1 = [] := by
  have h1 : update_cloudflare_dns env rid name ip = ([ApiCall.detailsFetch rid], none) := by
    simp only [update_cloudflare_dns, hd]
    rcases tp with ⟨tq, pq⟩
    rcases h with h | h
    · simp only at h
      subst h
      cases pq <;> rfl
    · simp only at h
      subst h
      cases tq <;> rfl
  exact ⟨h1, by rw [h1]; rfl⟩

/-- C9 witness: in `envA`, record id `rid3` has no retrievable details, so
updating `broken.victorphan.net` issues only the detail GET. -/
theorem C9_details_failure_no_put_witness :
    update_cloudflare_dns envA "rid3" "broken.victorphan.net" (Json.str "1.2.3.4") =
      ([ApiCall.detailsFetch "rid3"], none) ∧
    putsOf (update_cloudflare_dns envA "rid3" "broken.victorphan.net" (Json.str "1.2.3.4")).1 =
      [] :=
  C9_details_failure_no_put envA "rid3" "broken.victorphan.net" (Json.str "1.2.3.4")
    (none, none) rfl (Or.inl rfl)

/-- C7: when the record-id lookup finds no match for the record's full
name, the Reconciler issues neither a detail fetch nor an update for that
record — its only call is the lookup GET — and the loop proceeds to the
next managed record without aborting the cycle. -/
theorem C7_lookup_miss_skips (env : PollEnv) (sub : String) (ip : Json) (rest : List Json)
    (hsub : sub ≠ "")
    (hrid : env.recordId (sub ++ "." ++ domain_name) = none) :
    processRecord env (jobj [("record_name", Json.str sub)]) ip =
      ([ApiCall.recordLookup (sub ++ "." ++ domain_name)], none) ∧
    processRecords env (jobj [("record_name", Json.str sub)] :: rest) ip =
      (ApiCall.recordLookup (sub ++ "." ++ domain_name) :: (processRecords env rest ip).1,
        (processRecords env rest ip).2) := by
  have hne : sub.isEmpty = false := by
    cases he : sub.isEmpty
    · rfl
    · exact absurd ((String.isEmpty_iff sub).mp he) hsub
  have h1 : processRecord env (jobj [("record_name", Json.str sub)]) ip =
      ([ApiCall.recordLookup (sub ++ "." ++ domain_name)], none) := by
    simp [processRecord, jobj, JsonObj.ofList, JsonObj.get, pyTruthy, pyFStr, hne, hrid]
  refine ⟨h1, ?_⟩
  rcases hrest : processRecords env rest ip with ⟨more, exn⟩
  simp [processRecords, h1, hrest]

/-- C7 witness: `gone.victorphan.net` has no record id in `envA`; its
record is skipped after the one lookup and the cycle goes on. -/
theorem C7_lookup_miss_skips_witness :
    processRecord envA (jobj [("record_name", Json.str "gone")]) (Json.str "1.2.3.4") =
      ([ApiCall.recordLookup ("gone" ++ "." ++ domain_name)], none) ∧
    processRecords envA [jobj [("record_name", Json.str "gone")]] (Json.str "1.2.3.4") =
      (ApiCall.recordLookup ("gone" ++ "." ++ domain_name) ::
          (processRecords envA [] (Json.str "1.2.3.4")).1,
        (processRecords envA [] (Json.str "1.2.3.4")).2) :=
  C7_lookup_miss_skips envA "gone" (Json.str "1.2.3.4") [] (by decide) rfl

/-- C10: a managed-record entry whose `record_name` key is missing or maps
to the empty string is skipped with no provider API call at all (no
lookup, no detail fetch, no PUT), and the loop proceeds to the next
entry. -/
theorem C10_blank_entry_skipped (env : PollEnv) (entries : JsonObj) (ip : Json)
    (rest : List Json)
    (h : JsonObj.get entries "record_name" = none ∨
        JsonObj.get entries "record_name" = some (Json.str "")) :
    processRecord env (Json.obj entries) ip = ([], none) ∧
    processRecords env (Json.obj entries :: rest) ip = processRecords env rest ip := by
  have h1 : processRecord env (Json.obj entries) ip = ([], none) := by
    rcases h with h | h
    · simp [processRecord, h]
    · simp [processRecord, h, pyTruthy, String.isEmpty]
  refine ⟨h1, ?_⟩
  rcases hrest : processRecords env rest ip with ⟨more, exn⟩
  simp [processRecords, h1, hrest]

/-- C10 witness: an entry keyed `host` instead of `record_name` causes no
API call and leaves the rest of the cycle unchanged. -/
theorem C10_blank_entry_skipped_witness :
    processRecord envA (jobj [("host", Json.str "home")]) (Json.str "1.2.3.4") = ([], none) ∧
    processRecords envA (jobj [("host", Json.str "home")] :: []) (Json.str "1.2.3.4") =
      processRecords envA [] (Json.str "1.2.3.4") :=
  C10_blank_entry_skipped envA (JsonObj.cons "host" (Json.str "home") JsonObj.nil)
    (Json.str "1.2.3.4") [] (Or.inl rfl)

/-- C6: when DNS resolution of the record's full name fails after a record
id was found (and the detail fetch succeeds), the Reconciler still issues
exactly one PUT carrying the current public IP — the optimistic repair —
instead of skipping the record. -/
theorem C6_resolution_failure_updates (env : PollEnv) (sub rid : String) (ip t p : Json)
    (hsub : sub ≠ "")
    (hrid : env.recordId (sub ++ "." ++ domain_name) = some rid)
    (hrid0 : rid ≠ "")
    (hres : env.resolve (sub ++ "." ++ domain_name) = none)
    (hdet : get_record_details (env.details rid) = Except.ok (some t, some p)) :
    (processRecord env (jobj [("record_name", Json.str sub)]) ip).1 =
      [ApiCall.recordLookup (sub ++ "." ++ domain_name), ApiCall.detailsFetch rid,
        ApiCall.putRecord rid (sub ++ "." ++ domain_name) "A" ip t p] ∧
    putsOf (processRecord env (jobj [("record_name", Json.str sub)]) ip).1 =
      [ApiCall.putRecord rid (sub ++ "." ++ domain_name) "A" ip t p] := by
  have hne : sub.isEmpty = false := by
    cases he : sub.isEmpty
    · rfl
    · exact absurd ((String.isEmpty_iff sub).mp he) hsub
  have hu := update_cloudflare_dns_fst env rid (sub ++ "." ++ domain_name) ip t p hdet
  rcases hup : update_cloudflare_dns env rid (sub ++ "." ++ domain_name) ip with ⟨ucalls, uexn⟩
  rw [hup] at hu
  simp only at hu
  have h1 : (processRecord env (jobj [("record_name", Json.str sub)]) ip).1 =
      [ApiCall.recordLookup (sub ++ "." ++ domain_name), ApiCall.detailsFetch rid,
        ApiCall.putRecord rid (sub ++ "." ++ domain_name) "A" ip t p] := by
    simp [processRecord, jobj, JsonObj.ofList, JsonObj.get, pyTruthy, pyFStr, hne, hrid,
      hrid0, hres, hup, hu]
  refine ⟨h1, ?_⟩
  rw [h1]
  simp [putsOf, List.filter, ApiCall.isPut]

/-- C6 witness: `lost.victorphan.net` has record id `rid2` in `envA` but
does not resolve; one PUT with the public IP `1.2.3.4` is issued. -/
theorem C6_resolution_failure_updates_witness :
    (processRecord envA (jobj [("record_name", Json.str "lost")]) (Json.str "1.2.3.4")).1 =
      [ApiCall.recordLookup ("lost" ++ "." ++ domain_name), ApiCall.detailsFetch "rid2",
        ApiCall.putRecord "rid2" ("lost" ++ "." ++ domain_name) "A" (Json.str "1.2.3.4")
          (Json.int 120) (Json.bool true)] ∧
    putsOf (processRecord envA (jobj [("record_name", Json.str "lost")]) (Json.str "1.2.3.4")).1 =
      [ApiCall.putRecord "rid2" ("lost" ++ "." ++ domain_name) "A" (Json.str "1.2.3.4")
        (Json.int 120) (Json.bool true)] :=
  C6_resolution_failure_updates envA "lost" "rid2" (Json.str "1.2.3.4") (Json.int 120)
    (Json.bool true) (by decide) rfl (by decide) rfl rfl

/-- C5: with a found record id and a successful DNS resolution, the
Reconciler issues zero update calls when the resolved content equals the
current public IP, and exactly one PUT — whose ttl and proxied fields are
the ones the detail fetch returned, never defaulted — when it differs. -/
theorem C5_compare_then_update (env : PollEnv) (sub ipS cur rid : String) (t p : Json)
    (hsub : sub ≠ "")
    (hrid : env.recordId (sub ++ "." ++ domain_name) = some rid)
    (hrid0 : rid ≠ "")
    (hres : env.resolve (sub ++ "." ++ domain_name) = some cur) :
    (cur = ipS →
      processRecord env (jobj [("record_name", Json.str sub)]) (Json.str ipS) =
        ([ApiCall.recordLookup (sub ++ "." ++ domain_name)], none)) ∧
    (cur ≠ ipS → get_record_details (env.details rid) = Except.ok (some t, some p) →
      putsOf (processRecord env (jobj [("record_name", Json.str sub)]) (Json.str ipS)).1 =
        [ApiCall.putRecord rid (sub ++ "." ++ domain_name) "A" (Json.str ipS) t p]) := by
  have hne : sub.isEmpty = false := by
    cases he : sub.isEmpty
    · rfl
    · exact absurd ((String.isEmpty_iff sub).mp he) hsub
  constructor
  · intro heq
    subst heq
    simp [processRecord, jobj, JsonObj.ofList, JsonObj.get, pyTruthy, pyFStr, hne, hrid,
      hrid0, hres, pyStrEq]
  · intro hneq hdet
    have hu := update_cloudflare_dns_fst env rid (sub ++ "." ++ domain_name) (Json.str ipS) t p hdet
    rcases hup : update_cloudflare_dns env rid (sub ++ "." ++ domain_name) (Json.str ipS)
      with ⟨ucalls, uexn⟩
    rw [hup] at hu
    simp only at hu
    have h1 : (processRecord env (jobj [("record_name", Json.str sub)]) (Json.str ipS)).1 =
        ApiCall.recordLookup (sub ++ "." ++ domain_name) :: ucalls := by
      simp [processRecord, jobj, JsonObj.ofList, JsonObj.get, pyTruthy, pyFStr, hne, hrid,
        hrid0, hres, pyStrEq, hneq, hup]
    rw [h1, hu]
    simp [putsOf, List.filter, ApiCall.isPut]

/-- C5 witness: `home.victorphan.net` resolves to the stale `1.2.3.3`
while the public IP is `1.2.3.4`; exactly one PUT with ttl `300` and
proxied `false` — the fetched details — is issued. -/
theorem C5_compare_then_update_witness :
    putsOf (processRecord envA (jobj [("record_name", Json.str "home")]) (Json.str "1.2.3.4")).1 =
      [ApiCall.putRecord "rid1" ("home" ++ "." ++ domain_name) "A" (Json.str "1.2.3.4")
        (Json.int 300) (Json.bool false)] :=
  (C5_compare_then_update envA "home" "1.2.3.4" "1.2.3.3" "rid1" (Json.int 300) (Json.bool false)
    (by decide) rfl (by decide) rfl).2 (by decide) rfl

/-- Taking while a predicate holds of every element of a prefix stops
exactly at the first failing element. -/
theorem takeWhile_all_stop {α : Type} (p : α → Bool) (xs : List α) (y : α) (ys : List α)
    (hxs : ∀ c ∈ xs, p c = true) (hy : p y = false) :
    List.takeWhile p (xs ++ y :: ys) = xs := by
  induction xs with
  | nil => simp [List.takeWhile_cons, hy]
  | cons c cs ih =>
      have hc : p c = true := hxs c (List.mem_cons_self c cs)
      simp [List.takeWhile_cons, hc, ih (fun x hx => hxs x (List.mem_cons_of_mem c hx))]

/-- C3 counterexample: with one managed record `home` on file, a failed
record listing during the sync (`listResponse = none`) rewrites the
persisted configuration to one whose `dns_records` is the empty list —
the previously stored content is not left intact. -/
theorem C3_counterexample :
    update_config_with_a_records { listResponse := none } (write_config cfgHome) =
      Except.ok (write_config cfgHomeSynced) ∧
    read_config (write_config cfgHome) = some cfgHome ∧
    read_config (write_config cfgHomeSynced) = some cfgHomeSynced ∧
    json_dumps cfgHome ≠ json_dumps cfgHomeSynced :=
  ⟨rfl, rfl, rfl, by decide⟩

/-- C3 amended: a failed record listing during the startup sync does not
leave the stored `dns_records` intact — `get_all_a_records` collapses the
failure to `[]` and the sync persists the configuration with an empty
`dns_records`, erasing whatever was stored before. -/
theorem C3_sync_failure_writes_empty (file : Option String) (entries : JsonObj)
    (hread : read_config file = some (Json.obj entries))
    (htru : pyTruthy (Json.obj entries) = true) :
    update_config_with_a_records { listResponse := none } file =
      Except.ok (write_config (Json.obj
        (JsonObj.set entries "dns_records" (Json.arr JsonArr.nil)))) := by
  simp [update_config_with_a_records, hread, htru, get_all_a_records, dnsRecordsOf]
  rfl

/-- C3 witness: the amended statement at the concrete `cfgHome` file. -/
theorem C3_sync_failure_writes_empty_witness :
    update_config_with_a_records { listResponse := none } (write_config cfgHome) =
      Except.ok (write_config (Json.obj
        (JsonObj.set cfgHomeEntries "dns_records" (Json.arr JsonArr.nil)))) :=
  C3_sync_failure_writes_empty (write_config cfgHome) cfgHomeEntries rfl rfl

/-- C4 counterexample: for the provider record `a.b.victorphan.net` the
sync stores the label `a` — the first dot-separated component — while
stripping the fixed root domain suffix would give `a.b`; the persisted
configuration holds `a`. -/
theorem C4_counterexample :
    dnsRecordsOf [{ name := "a.b.victorphan.net" }] =
      JsonArr.cons (jobj [("record_name", Json.str "a")]) JsonArr.nil ∧
    stripRootSuffix "victorphan.net" "a.b.victorphan.net" = "a.b" ∧
    ("a" : String) ≠ "a.b" ∧
    update_config_with_a_records { listResponse := some [{ name := "a.b.victorphan.net" }] }
        (write_config cfgHome) =
      Except.ok (write_config (Json.obj (JsonObj.set cfgHomeEntries "dns_records"
        (jarr [jobj [("record_name", Json.str "a")]])))) :=
  ⟨rfl, rfl, by decide, rfl⟩

/-- C4 amended: the sync persists, for every provider record, the **first
dot-separated label** of its full name (`name.split('.')[0]`), which
coincides with stripping the root domain suffix exactly when the
subdomain part has a single label; the rewritten `dns_records` is written
back to the configuration store. -/
theorem C4_first_label_persisted (env : SyncEnv) (file : Option String) (entries : JsonObj)
    (hread : read_config file = some (Json.obj entries))
    (htru : pyTruthy (Json.obj entries) = true) :
    update_config_with_a_records env file =
      Except.ok (write_config (Json.obj (JsonObj.set entries "dns_records"
        (Json.arr (JsonArr.ofList ((get_all_a_records env).map
          (fun r => jobj [("record_name", Json.str (splitFirstLabel r.name))]))))))) ∧
    (∀ lbl root : String, (∀ c ∈ lbl.data, c ≠ '.') →
      splitFirstLabel (lbl ++ "." ++ root) = lbl ∧
      stripRootSuffix root (lbl ++ "." ++ root) = lbl) := by
  constructor
  · simp [update_config_with_a_records, hread, htru, dnsRecordsOf]
  · intro lbl root hnodot
    have hdata : (lbl ++ "." ++ root).data = lbl.data ++ '.' :: root.data := by
      simp [String.data_append]
    constructor
    · rw [splitFirstLabel, hdata,
        takeWhile_all_stop _ lbl.data '.' root.data
          (fun c hc => by simpa using hnodot c hc) (by simp)]
    · rw [stripRootSuffix]
      have hsuf : (("." ++ root).data).isSuffixOf (lbl ++ "." ++ root).data = true := by
        rw [List.isSuffixOf_iff_suffix, hdata, String.data_append]
        show ("." : String).data ++ root.data <:+ lbl.data ++ '.' :: root.data
        exact ⟨lbl.data, by simp⟩
      rw [if_pos hsuf, hdata]
      have hlen : (lbl.data ++ '.' :: root.data).length - (root.data.length + 1) =
          lbl.data.length := by
        simp
      rw [hlen, List.take_left]

/-- C4 witness: a sync against a zone listing `home.example.com` and
`office.example.com` persists `dns_records` = `[home, office]`. -/
theorem C4_first_label_persisted_witness :
    update_config_with_a_records
        { listResponse := some [{ name := "home.example.com" }, { name := "office.example.com" }] }
        (write_config cfgHome) =
      Except.ok (write_config (Json.obj (JsonObj.set cfgHomeEntries "dns_records"
        (jarr [jobj [("record_name", Json.str "home")],
          jobj [("record_name", Json.str "office")]])))) :=
  (C4_first_label_persisted
    { listResponse := some [{ name := "home.example.com" }, { name := "office.example.com" }] }
    (write_config cfgHome) cfgHomeEntries rfl rfl).1

/-- C1 counterexample: with `old` on file and a provider listing exactly
`new.victorphan.net`, the sync rewrites the stored configuration to the
`new` record, yet the loop state handed to every polling cycle still
holds `old`, and the cycle's lookup goes to `old.victorphan.net`, not to
the synced name. -/
theorem C1_counterexample :
    main_before_loop syncNew (write_config cfgOld) =
      Except.ok (some (write_config cfgNew, jarr [jobj [("record_name", Json.str "old")]])) ∧
    pollCycle envNoop (jarr [jobj [("record_name", Json.str "old")]]) =
      ([ApiCall.recordLookup "old.victorphan.net"], none) ∧
    ("old.victorphan.net" : String) ≠ "new.victorphan.net" :=
  ⟨rfl, rfl, by decide⟩

/-- C1 amended: the one-time sync rewrites the **persisted**
configuration's `dns_records` to the provider's record set, but the
polling loop iterates — in every cycle — over the `dns_records` value
extracted from the configuration as it was read *before* the sync; the
rewritten set only takes effect after a restart. -/
theorem C1_loop_uses_presync_records (env : SyncEnv) (file : Option String) (entries : JsonObj)
    (hread : read_config file = some (Json.obj entries))
    (hz : optTruthy (JsonObj.get entries "cloudflare_zone_id") = true)
    (ht : optTruthy (JsonObj.get entries "cloudflare_api_token") = true)
    (hd : pyTruthy ((JsonObj.get entries "dns_records").getD (Json.arr JsonArr.nil)) = true) :
    main_before_loop env file =
      Except.ok (some (write_config (Json.obj (JsonObj.set entries "dns_records"
          (Json.arr (dnsRecordsOf (get_all_a_records env))))),
        (JsonObj.get entries "dns_records").getD (Json.arr JsonArr.nil))) := by
  have htru : pyTruthy (Json.obj entries) = true := by
    cases entries with
    | nil => simp [JsonObj.get, optTruthy] at hz
    | cons k v rest => rfl
  simp [main_before_loop, hread, htru, hz, ht, hd, update_config_with_a_records, dnsRecordsOf]

/-- C1 witness: the amended statement at the concrete `cfgOld` file and
the provider set `new.victorphan.net`. -/
theorem C1_loop_uses_presync_records_witness :
    main_before_loop syncNew (write_config cfgOld) =
      Except.ok (some (write_config (Json.obj (JsonObj.set cfgOldEntries "dns_records"
          (Json.arr (dnsRecordsOf (get_all_a_records syncNew))))),
        (JsonObj.get cfgOldEntries "dns_records").getD (Json.arr JsonArr.nil))) :=
  C1_loop_uses_presync_records syncNew (write_config cfgOld) cfgOldEntries rfl rfl rfl rfl

/-- A 2xx detail response whose JSON body is a list (not an object) makes
`get_record_details` raise `AttributeError` at `.get`, which
`update_cloudflare_dns` does not catch and which aborts the cycle — the
other unguarded dereference the amended C2 statement excepts. -/
theorem detail_attribute_error_escapes :
    pollCycle
      { ipResponse := HttpJson.success (jobj [("ip", Json.str "9.9.9.9")])
        recordId := fun _ => some "rid9"
        resolve := fun _ => some "1.1.1.1"
        details := fun _ => HttpJson.success (jarr [])
        putResponse := fun _ => HttpJson.failure }
      (jarr [jobj [("record_name", Json.str "home")]]) =
      ([ApiCall.recordLookup "home.victorphan.net", ApiCall.detailsFetch "rid9"],
        some PyExn.attributeError) := by
  rfl

/-- The decimal digit characters carry their values and are digits. -/
theorem decDigit_spec : ∀ k : Nat, k < 10 →
    (decDigit k).toNat = k + 48 ∧ isDecDigit (decDigit k) = true := by decide

/-- The fuel of `natCharsGo` is irrelevant once it covers the value. -/
theorem natCharsGo_congr : ∀ n f₁ f₂ : Nat, n ≤ f₁ → n ≤ f₂ →
    natCharsGo f₁ n = natCharsGo f₂ n := by
  intro n
  induction n using Nat.strong_induction_on with
  | _ n ih =>
      intro f₁ f₂ h₁ h₂
      by_cases hn : n < 10
      · cases f₁ with
        | zero =>
            cases f₂ with
            | zero => rfl
            | succ g₂ =>
                have hz : n = 0 := by omega
                subst hz
                simp [natCharsGo]
        | succ g₁ =>
            cases f₂ with
            | zero =>
                have hz : n = 0 := by omega
                subst hz
                simp [natCharsGo]
            | succ g₂ => simp [natCharsGo, hn]
      · have h10 : 10 ≤ n := by omega
        cases f₁ with
        | zero => omega
        | succ g₁ =>
            cases f₂ with
            | zero => omega
            | succ g₂ =>
                simp only [natCharsGo, if_neg hn]
                rw [ih (n / 10) (by omega) g₁ g₂ (by omega) (by omega)]

/-- The recursive unfolding of `natChars` itself. -/
theorem natChars_unfold (n : Nat) :
    natChars n = if n < 10 then [decDigit n] else natChars (n / 10) ++ [decDigit (n % 10)] := by
  by_cases hn : n < 10
  · cases hh : n with
    | zero => simp [natChars, natCharsGo, hn]
    | succ m =>
        subst hh
        simp only [natChars, natCharsGo, if_pos hn]
  · have h10 : 10 ≤ n := by omega
    rcases hf : n with _ | m
    · omega
    · subst hf
      simp only [natChars, natCharsGo, if_neg hn]
      rw [natCharsGo_congr ((m + 1) / 10) m ((m + 1) / 10) (by omega) (by omega)]

/-- Every character of a rendered numeral is a digit. -/
theorem natChars_digits (n : Nat) : ∀ c ∈ natChars n, isDecDigit c = true := by
  induction n using Nat.strong_induction_on with
  | _ n ih =>
      rw [natChars_unfold]
      by_cases hn : n < 10
      · simp only [if_pos hn, List.mem_singleton]
        intro c hc
        subst hc
        exact (decDigit_spec n hn).2
      · simp only [if_neg hn]
        intro c hc
        rcases List.mem_append.mp hc with hc | hc
        · exact ih (n / 10) (by omega) c hc
        · rw [List.mem_singleton] at hc
          subst hc
          exact (decDigit_spec (n % 10) (by omega)).2

/-- A rendered numeral is nonempty and starts with a digit. -/
theorem natChars_head (n : Nat) :
    ∃ c t, natChars n = c :: t ∧ isDecDigit c = true := by
  rcases hh : natChars n with _ | ⟨c, t⟩
  · exfalso
    rw [natChars_unfold] at hh
    by_cases hn : n < 10
    · simp [if_pos hn] at hh
    · simp [if_neg hn] at hh
  · exact ⟨c, t, rfl, natChars_digits n c (hh ▸ List.mem_cons_self c t)⟩

/-- Reading digits: `readNat` folds a rendered numeral into the accumulator. -/
theorem readNat_natChars (n : Nat) : ∀ (acc : Nat) (rest : List Char),
    readNat acc (natChars n ++ rest) =
      readNat (acc * 10 ^ (natChars n).length + n) rest := by
  induction n using Nat.strong_induction_on with
  | _ n ih =>
      intro acc rest
      rw [natChars_unfold]
      by_cases hn : n < 10
      · simp only [if_pos hn, List.singleton_append, readNat,
          (decDigit_spec n hn).2, if_pos rfl]
        have hv : (decDigit n).toNat - 48 = n := by
          rw [(decDigit_spec n hn).1]
          omega
        rw [hv]
        norm_num
      · simp only [if_neg hn, List.append_assoc, List.singleton_append]
        rw [ih (n / 10) (by omega)]
        simp only [readNat, (decDigit_spec (n % 10) (by omega)).2, if_pos rfl]
        have hv : (decDigit (n % 10)).toNat - 48 = n % 10 := by
          rw [(decDigit_spec (n % 10) (by omega)).1]
          omega
        rw [hv]
        have hlen : (natChars (n / 10) ++ [decDigit (n % 10)]).length =
            (natChars (n / 10)).length + 1 := by simp
        rw [hlen, pow_succ, ← Nat.mul_assoc]
        have harith : (acc * 10 ^ (natChars (n / 10)).length + n / 10) * 10 + n % 10 =
            acc * 10 ^ (natChars (n / 10)).length * 10 + n := by
          have hd := Nat.div_add_mod n 10
          generalize acc * 10 ^ (natChars (n / 10)).length = B
          omega
        rw [harith]
        simp

/-- Reading digits stops at a non-digit. -/
theorem readNat_stop (acc : Nat) (rest : List Char) (h : numStop rest = true) :
    readNat acc rest = (acc, rest) := by
  cases rest with
  | nil => rfl
  | cons c cs =>
      have hc : isDecDigit c = false := by simpa [numStop] using h
      simp [readNat, hc]

/-- Reading digits inverts the numeral rendering. -/
theorem readNat_roundtrip (n : Nat) (rest : List Char) (h : numStop rest = true) :
    readNat 0 (natChars n ++ rest) = (n, rest) := by
  rw [readNat_natChars, readNat_stop _ _ h]
  norm_num

/-- A digit character is no whitespace and none of the characters the
grammar dispatches on. -/
theorem isDecDigit_props (c : Char) (h : isDecDigit c = true) :
    isJsonWs c = false ∧ c ≠ 'n' ∧ c ≠ 't' ∧ c ≠ 'f' ∧ c ≠ '"' ∧ c ≠ '[' ∧ c ≠ '{' ∧
      c ≠ '-' ∧ c ≠ ']' ∧ c ≠ '}' ∧ c ≠ ',' := by
  have hb : 48 ≤ c.toNat ∧ c.toNat ≤ 57 := by simpa [isDecDigit] using h
  have hne : ∀ x : Char, c.toNat ≠ x.toNat → c ≠ x := by
    intro x hx he
    exact hx (congrArg Char.toNat he)
  refine ⟨?_, ?_, ?_, ?_, ?_, ?_, ?_, ?_, ?_, ?_, ?_⟩
  · have h1 : c ≠ ' ' := hne ' ' (by simp; omega)
    have h2 : c ≠ '\t' := hne '\t' (by simp; omega)
    have h3 : c ≠ '\n' := hne '\n' (by simp; omega)
    have h4 : c ≠ '\r' := hne '\r' (by simp; omega)
    simp [isJsonWs, h1, h2, h3, h4]
  · exact hne 'n' (by simp; omega)
  · exact hne 't' (by simp; omega)
  · exact hne 'f' (by simp; omega)
  · exact hne '"' (by simp; omega)
  · exact hne '[' (by simp; omega)
  · exact hne '{' (by simp; omega)
  · exact hne '-' (by simp; omega)
  · exact hne ']' (by simp; omega)
  · exact hne '}' (by simp; omega)
  · exact hne ',' (by simp; omega)

/-- Reading an integer inverts the integer rendering. -/
theorem readInt_intChars (n : Int) (rest : List Char) (h : numStop rest = true) :
    readInt (intChars n ++ rest) = some (n, rest) := by
  by_cases hn : n < 0
  · have hform : intChars n = '-' :: natChars n.natAbs := by simp [intChars, hn]
    rw [hform]
    obtain ⟨c, t, hh, hc⟩ := natChars_head n.natAbs
    rw [List.cons_append, hh, List.cons_append]
    simp only [readInt, if_pos rfl, if_pos hc]
    rw [← List.cons_append, ← hh, readNat_roundtrip _ _ h]
    have hv : -(((n.natAbs : Nat) : Int)) = n := by omega
    rw [hv]
    simp
  · have hform : intChars n = natChars n.natAbs := by simp [intChars, hn]
    rw [hform]
    obtain ⟨c, t, hh, hc⟩ := natChars_head n.natAbs
    rw [hh, List.cons_append]
    obtain ⟨hws, hn', ht', hf', hq, hbk, hbc, hm, hbr, hbe, hcm⟩ := isDecDigit_props c hc
    simp only [readInt, if_neg hm, if_pos hc]
    rw [← List.cons_append, ← hh, readNat_roundtrip _ _ h]
    have hv : (((n.natAbs : Nat) : Int)) = n := by omega
    rw [hv]

/-- Dropping whitespace ignores one leading whitespace character. -/
theorem dropWs_cons_ws (c : Char) (x : List Char) (h : isJsonWs c = true) :
    dropWs (c :: x) = dropWs x := by
  simp [dropWs, h]

/-- Dropping whitespace ignores leading spaces. -/
theorem dropWs_replicate (k : Nat) (x : List Char) :
    dropWs (List.replicate k ' ' ++ x) = dropWs x := by
  induction k with
  | zero => rfl
  | succ m ih => simpa [List.replicate_succ, dropWs, isJsonWs] using ih

/-- Dropping whitespace ignores indentation. -/
theorem dropWs_indentAt (d : Nat) (x : List Char) :
    dropWs (indentAt d ++ x) = dropWs x :=
  dropWs_replicate (4 * d) x

/-- The value reader only looks at its input through `dropWs`. -/
theorem readVal_congr (f : Nat) (cs₁ cs₂ : List Char) (h : dropWs cs₁ = dropWs cs₂) :
    readVal f cs₁ = readVal f cs₂ := by
  cases f with
  | zero => rfl
  | succ g => simp only [readVal, h]

/-- The item reader only looks at its input through `dropWs` (its first step
is `readVal`). -/
theorem readItems_congr (f : Nat) (cs₁ cs₂ : List Char) (h : dropWs cs₁ = dropWs cs₂) :
    readItems f cs₁ = readItems f cs₂ := by
  cases f with
  | zero => rfl
  | succ g =>
      simp only [readItems]
      rw [readVal_congr g cs₁ cs₂ h]

/-- The member reader only looks at its input through `dropWs`. -/
theorem readEntries_congr (f : Nat) (cs₁ cs₂ : List Char) (h : dropWs cs₁ = dropWs cs₂) :
    readEntries f cs₁ = readEntries f cs₂ := by
  cases f with
  | zero => rfl
  | succ g => simp only [readEntries, h]

/-- The hexadecimal digit characters carry their values. -/
theorem hexVal_hexDigit : ∀ k : Nat, k < 16 → hexVal (hexDigit k) = some k := by decide

/-- Reading four hex digits undoes the rendering of `hex4`. -/
theorem hexVal4_hex4 (n : Nat) (h : n < 65536) :
    hexVal4 (hexDigit (n / 4096 % 16)) (hexDigit (n / 256 % 16)) (hexDigit (n / 16 % 16))
      (hexDigit (n % 16)) = some n := by
  have h1 := hexVal_hexDigit (n / 4096 % 16) (Nat.mod_lt _ (by omega))
  have h2 := hexVal_hexDigit (n / 256 % 16) (Nat.mod_lt _ (by omega))
  have h3 := hexVal_hexDigit (n / 16 % 16) (Nat.mod_lt _ (by omega))
  have h4 := hexVal_hexDigit (n % 16) (Nat.mod_lt _ (by omega))
  simp only [hexVal4, h1, h2, h3, h4]
  congr 1
  omega

/-- A scalar value is below `0xd800` or above the surrogate block. -/
theorem char_valid_cases (c : Char) :
    c.toNat < 55296 ∨ (57343 < c.toNat ∧ c.toNat < 1114112) := c.valid

/-- Parsing a non-surrogate `\uXXXX` escape yields its scalar value. -/
theorem readStrBody_u (a b c d : Char) (rest : List Char) (u : Nat)
    (hhex : hexVal4 a b c d = some u) (hns : ¬(55296 ≤ u ∧ u ≤ 57343)) :
    readStrBody ('\\' :: 'u' :: a :: b :: c :: d :: rest) =
      (readStrBody rest).map (fun sr => (Char.ofNat u :: sr.1, sr.2)) := by
  simp only [readStrBody, hhex]
  rw [if_neg (by omega), if_neg (by omega)]
  rcases hb : readStrBody rest with _ | ⟨s, r⟩ <;> simp [hb]

/-- Parsing a surrogate-pair escape yields the joined scalar value. -/
theorem readStrBody_u_pair (a b c d a2 b2 c2 d2 : Char) (rest : List Char) (u u2 : Nat)
    (hhex : hexVal4 a b c d = some u) (hhex2 : hexVal4 a2 b2 c2 d2 = some u2)
    (hu : 55296 ≤ u ∧ u ≤ 56319) (hu2 : 56320 ≤ u2 ∧ u2 ≤ 57343) :
    readStrBody
        ('\\' :: 'u' :: a :: b :: c :: d :: '\\' :: 'u' :: a2 :: b2 :: c2 :: d2 :: rest) =
      (readStrBody rest).map (fun sr => (surrogateJoin u u2 :: sr.1, sr.2)) := by
  simp only [readStrBody, hhex]
  rw [if_pos hu]
  simp only [hhex2]
  rw [if_pos hu2]
  rcases hb : readStrBody rest with _ | ⟨s, r⟩ <;> simp [hb]

/-- One escaped character parses back to itself, whatever follows. -/
theorem readStrBody_escapeChar (ch : Char) (tail : List Char) :
    readStrBody (escapeChar ch ++ tail) =
      (readStrBody tail).map (fun sr => (ch :: sr.1, sr.2)) := by
  by_cases h1 : ch = '\\'
  · subst h1
    rcases hb : readStrBody tail with _ | ⟨s, r⟩ <;>
      simp [escapeChar, readStrBody, shortEscape, hb]
  by_cases h2 : ch = '"'
  · subst h2
    rcases hb : readStrBody tail with _ | ⟨s, r⟩ <;>
      simp [escapeChar, readStrBody, shortEscape, hb]
  by_cases h3 : ch = Char.ofNat 8
  · subst h3
    rcases hb : readStrBody tail with _ | ⟨s, r⟩ <;>
      simp [escapeChar, readStrBody, shortEscape, hb]
  by_cases h4 : ch = Char.ofNat 9
  · subst h4
    rcases hb : readStrBody tail with _ | ⟨s, r⟩ <;>
      simp [escapeChar, readStrBody, shortEscape, hb]
  by_cases h5 : ch = Char.ofNat 10
  · subst h5
    rcases hb : readStrBody tail with _ | ⟨s, r⟩ <;>
      simp [escapeChar, readStrBody, shortEscape, hb]
  by_cases h6 : ch = Char.ofNat 12
  · subst h6
    rcases hb : readStrBody tail with _ | ⟨s, r⟩ <;>
      simp [escapeChar, readStrBody, shortEscape, hb]
  by_cases h7 : ch = Char.ofNat 13
  · subst h7
    rcases hb : readStrBody tail with _ | ⟨s, r⟩ <;>
      simp [escapeChar, readStrBody, shortEscape, hb]
  by_cases h8 : ch.toNat < 32
  · have hesc : escapeChar ch = '\\' :: 'u' :: hex4 ch.toNat := by
      simp [escapeChar, h1, h2, h3, h4, h5, h6, h7, h8]
    rw [hesc, hex4]
    simp only [List.cons_append]
    rw [readStrBody_u _ _ _ _ _ _ (hexVal4_hex4 ch.toNat (by omega)) (by omega),
      Char.ofNat_toNat, List.nil_append]
  by_cases h9 : ch.toNat < 127
  · have hesc : escapeChar ch = [ch] := by
      simp [escapeChar, h1, h2, h3, h4, h5, h6, h7, h8, h9]
    rw [hesc]
    simp only [List.singleton_append]
    rcases hb : readStrBody tail with _ | ⟨s, r⟩ <;>
      simp [readStrBody, h1, h2, hb]
  by_cases h10 : ch.toNat < 65536
  · have hns : ¬(55296 ≤ ch.toNat ∧ ch.toNat ≤ 57343) := by
      rcases char_valid_cases ch with hv | hv <;> omega
    have hesc : escapeChar ch = '\\' :: 'u' :: hex4 ch.toNat := by
      simp [escapeChar, h1, h2, h3, h4, h5, h6, h7, h8, h9, h10]
    rw [hesc, hex4]
    simp only [List.cons_append]
    rw [readStrBody_u _ _ _ _ _ _ (hexVal4_hex4 ch.toNat (by omega)) hns, Char.ofNat_toNat,
      List.nil_append]
  · have hlt : ch.toNat < 1114112 := by
      rcases char_valid_cases ch with hv | hv <;> omega
    have hesc : escapeChar ch =
        '\\' :: 'u' :: hex4 (55296 + (ch.toNat - 65536) / 1024) ++
          '\\' :: 'u' :: hex4 (56320 + (ch.toNat - 65536) % 1024) := by
      simp [escapeChar, h1, h2, h3, h4, h5, h6, h7, h8, h9, h10]
    rw [hesc, hex4, hex4]
    simp only [List.cons_append, List.append_assoc, List.nil_append]
    rw [readStrBody_u_pair _ _ _ _ _ _ _ _ _ _ _
      (hexVal4_hex4 (55296 + (ch.toNat - 65536) / 1024) (by omega))
      (hexVal4_hex4 (56320 + (ch.toNat - 65536) % 1024) (by omega))
      (by omega) (by omega)]
    have hj : surrogateJoin (55296 + (ch.toNat - 65536) / 1024)
        (56320 + (ch.toNat - 65536) % 1024) = ch := by
      rw [surrogateJoin]
      have harith : 65536 + (55296 + (ch.toNat - 65536) / 1024 - 55296) * 1024 +
          (56320 + (ch.toNat - 65536) % 1024 - 56320) = ch.toNat := by omega
      rw [harith, Char.ofNat_toNat]
    rw [hj]

/-- A whole escaped string body parses back to itself. -/
theorem readStrBody_escapeChars (cs tail : List Char) :
    readStrBody (escapeChars cs ++ '"' :: tail) = some (cs, tail) := by
  induction cs with
  | nil => rfl
  | cons c cs ih =>
      rw [escapeChars, List.append_assoc, readStrBody_escapeChar, ih]
      rfl

/-- Dropping whitespace stops at a non-whitespace character. -/
theorem dropWs_cons_nonws (c : Char) (x : List Char) (h : isJsonWs c = false) :
    dropWs (c :: x) = c :: x := by
  simp [dropWs, h]

/-- Packaging step for head-character facts about a character list: from an
explicit head and checks on it, conclude the existential form used below. -/
theorem renderHeadFrom (l : List Char) (c : Char) (t : List Char)
    (he : l = c :: t) (h1 : isJsonWs c = false)
    (h2 : decide (c = ']') = false) (h3 : decide (c = '}') = false) :
    ∃ c0 t0, l = c0 :: t0 ∧ isJsonWs c0 = false ∧ c0 ≠ ']' ∧ c0 ≠ '}' :=
  ⟨c, t, he, h1, of_decide_eq_false h2, of_decide_eq_false h3⟩

/-- A rendered value starts with a character that is neither whitespace
nor a closing bracket. -/
theorem renderVal_head (d : Nat) (j : Json) :
    ∃ c t, renderVal d j = c :: t ∧ isJsonWs c = false ∧ c ≠ ']' ∧ c ≠ '}' := by
  cases j with
  | int n =>
      by_cases hn : n < 0
      · refine renderHeadFrom _ '-' (natChars n.natAbs) ?_ rfl rfl rfl
        simp [renderVal, intChars, hn]
      · obtain ⟨c, t, hh, hc⟩ := natChars_head n.natAbs
        obtain ⟨hws, _, _, _, _, _, _, _, hbr, hbc, _⟩ := isDecDigit_props c hc
        refine ⟨c, t, ?_, hws, hbr, hbc⟩
        simp [renderVal, intChars, hn, hh]
  | bool b =>
      cases b
      case true => exact renderHeadFrom _ 't' _ rfl rfl rfl rfl
      case false => exact renderHeadFrom _ 'f' _ rfl rfl rfl rfl
  | null => exact renderHeadFrom _ 'n' _ rfl rfl rfl rfl
  | str s => exact renderHeadFrom _ '"' _ rfl rfl rfl rfl
  | arr items =>
      cases items
      case nil => exact renderHeadFrom _ '[' _ rfl rfl rfl rfl
      case cons x xs => exact renderHeadFrom _ '[' _ rfl rfl rfl rfl
  | obj entries =>
      cases entries
      case nil => exact renderHeadFrom _ '\x7b' _ rfl rfl rfl rfl
      case cons k v es => exact renderHeadFrom _ '\x7b' _ rfl rfl rfl rfl

/-- Dropping whitespace is the identity on a rendered value. -/
theorem dropWs_renderVal (d : Nat) (j : Json) (x : List Char) :
    dropWs (renderVal d j ++ x) = renderVal d j ++ x := by
  obtain ⟨c, t, hh, hws, _, _⟩ := renderVal_head d j
  rw [hh, List.cons_append]
  exact dropWs_cons_nonws c (t ++ x) hws

/-- An input headed by a sign or digit goes down the numeral branch of
`readVal`. -/
theorem readVal_num_branch (f : Nat) (c : Char) (t : List Char)
    (hws : isJsonWs c = false) (hn : c ≠ 'n') (ht : c ≠ 't') (hf : c ≠ 'f')
    (hq : c ≠ '"') (hbk : c ≠ '[') (hbc : c ≠ '{')
    (hg : (c = '-' || isDecDigit c) = true) :
    readVal (f + 1) (c :: t) =
      match readInt (c :: t) with
      | none => none
      | some (n, r2) => some (Json.int n, r2) := by
  simp only [readVal]
  rw [dropWs_cons_nonws c t hws]
  simp [hn, ht, hf, hq, hbk, hbc, hg]

/-- The value reader reads back a rendered integer. -/
theorem readVal_int (f : Nat) (n : Int) (rest : List Char) (h : numStop rest = true) :
    readVal (f + 1) (intChars n ++ rest) = some (Json.int n, rest) := by
  by_cases hn : n < 0
  · have hform : intChars n = '-' :: natChars n.natAbs := by simp [intChars, hn]
    rw [hform, List.cons_append,
      readVal_num_branch f '-' _ (by decide) (by decide) (by decide) (by decide) (by decide)
        (by decide) (by decide) (by decide),
      ← List.cons_append, ← hform, readInt_intChars n rest h]
  · have hform : intChars n = natChars n.natAbs := by simp [intChars, hn]
    obtain ⟨c, t, hh, hc⟩ := natChars_head n.natAbs
    obtain ⟨hws, hn', ht', hf', hq, hbk, hbc, _, _, _, _⟩ := isDecDigit_props c hc
    rw [hform, hh, List.cons_append,
      readVal_num_branch f c _ hws hn' ht' hf' hq hbk hbc (by simp [hc]),
      ← List.cons_append, ← hh, ← hform, readInt_intChars n rest h]

/-- Structural induction for the object spine (the mutual recursor of
`Json` has several motives, so the `induction` tactic needs this one). -/
theorem JsonObj.indOn {P : JsonObj → Prop} (o : JsonObj)
    (nil : P JsonObj.nil)
    (cons : ∀ k v rest, P rest → P (JsonObj.cons k v rest)) : P o :=
  match o with
  | JsonObj.nil => nil
  | JsonObj.cons k v rest => cons k v rest (JsonObj.indOn rest nil cons)

/-- Appending nothing changes nothing. -/
theorem JsonObj.append_nil (o : JsonObj) : JsonObj.append o JsonObj.nil = o := by
  induction o using JsonObj.indOn with
  | nil => rfl
  | cons k v rest ih => simp [JsonObj.append, ih]

/-- Object concatenation is associative. -/
theorem JsonObj.append_assoc (a b c : JsonObj) :
    JsonObj.append (JsonObj.append a b) c = JsonObj.append a (JsonObj.append b c) := by
  induction a using JsonObj.indOn with
  | nil => rfl
  | cons k v rest ih => simp [JsonObj.append, ih]

/-- A key is absent from a concatenation iff absent from both halves. -/
theorem keyAbsent_append (o1 o2 : JsonObj) (k : String) :
    keyAbsent (JsonObj.append o1 o2) k = (keyAbsent o1 k && keyAbsent o2 k) := by
  induction o1 using JsonObj.indOn with
  | nil => simp [JsonObj.append, keyAbsent]
  | cons k2 v2 rest ih => simp [JsonObj.append, keyAbsent, ih, Bool.and_assoc]

/-- Setting a fresh key appends the pair at the end, Python-style. -/
theorem JsonObj.set_absent (o : JsonObj) (k : String) (v : Json)
    (h : keyAbsent o k = true) :
    JsonObj.set o k v = JsonObj.append o (JsonObj.cons k v JsonObj.nil) := by
  induction o using JsonObj.indOn with
  | nil => rfl
  | cons k2 v2 rest ih =>
      have h1 : (k2 != k) = true ∧ keyAbsent rest k = true := by
        simpa [keyAbsent, Bool.and_eq_true] using h
      have hne : ¬(k2 = k) := by simpa using h1.1
      simp [JsonObj.set, JsonObj.append, hne, ih h1.2]

/-- Rebuilding a dict from the pairs of a dict with fresh keys appends
them in order after the accumulator. -/
theorem pyDictOf1_fresh (e : JsonObj) : ∀ acc : JsonObj, keysFresh e = true →
    (∀ k2, keyAbsent e k2 = false → keyAbsent acc k2 = true) →
    pyDictOf1 acc (JsonObj.toPairs e) = JsonObj.append acc e := by
  induction e using JsonObj.indOn with
  | nil =>
      intro acc _ _
      simp [JsonObj.toPairs, pyDictOf1, JsonObj.append_nil]
  | cons k v rest ih =>
      intro acc hfresh hdisj
      have hfr : keyAbsent rest k = true ∧ keysFresh rest = true := by
        simpa [keysFresh, Bool.and_eq_true] using hfresh
      have hacc : keyAbsent acc k = true := by
        apply hdisj k
        simp [keyAbsent]
      rw [JsonObj.toPairs, pyDictOf1, JsonObj.set_absent acc k v hacc]
      rw [ih (JsonObj.append acc (JsonObj.cons k v JsonObj.nil)) hfr.2 ?_]
      · rw [JsonObj.append_assoc]
        rfl
      · intro k2 hk2
        rw [keyAbsent_append]
        have hacc2 : keyAbsent acc k2 = true := by
          apply hdisj k2
          simp [keyAbsent, hk2]
        have hne : ¬(k = k2) := by
          intro he
          subst he
          rw [hfr.1] at hk2
          cases hk2
        simp [hacc2, keyAbsent, hne]

/-- Python's `dict(pairs)` over the pairs of a fresh-keyed object is that object:
what `json.load` builds for a rendered object with distinct keys. -/
theorem pyDictOf_toPairs (e : JsonObj) (h : keysFresh e = true) :
    pyDictOf (JsonObj.toPairs e) = e := by
  rw [pyDictOf, pyDictOf1_fresh e JsonObj.nil h (fun k2 _ => rfl)]
  rfl

/-- The array branch of `readVal`, once the element list is known not to
start (after whitespace) with a closing bracket. -/
theorem readVal_arr_branch (f : Nat) (r : List Char) (c : Char) (t : List Char)
    (hr : dropWs r = c :: t) (hbr : c ≠ ']') :
    readVal (f + 1) ('[' :: r) =
      match readItems f r with
      | none => none
      | some (xs, r2) => some (Json.arr xs, r2) := by
  simp only [readVal]
  rw [dropWs_cons_nonws '[' r (by decide)]
  simp [hr, hbr]

/-- The object branch of `readVal`, once the member list is known not to
start (after whitespace) with a closing brace. -/
theorem readVal_obj_branch (f : Nat) (r : List Char) (c : Char) (t : List Char)
    (hr : dropWs r = c :: t) (hbc : c ≠ '}') :
    readVal (f + 1) ('{' :: r) =
      match readEntries f r with
      | none => none
      | some (es, r2) => some (Json.obj (pyDictOf es), r2) := by
  simp only [readVal]
  rw [dropWs_cons_nonws '{' r (by decide)]
  simp [hr, hbc]

/-- After whitespace, a rendered non-empty item list starts with the head
of its first value — no whitespace, no closing bracket. -/
theorem dropWs_renderItems (d : Nat) (x : Json) (xs : JsonArr) (y : List Char) :
    ∃ c t, dropWs (renderItems d (JsonArr.cons x xs) ++ y) = c :: t ∧
      isJsonWs c = false ∧ c ≠ ']' ∧ c ≠ '}' := by
  obtain ⟨c, t, hh, hws, hbr, hbc⟩ := renderVal_head (d + 1) x
  cases xs with
  | nil =>
      refine ⟨c, t ++ y, ?_, hws, hbr, hbc⟩
      rw [renderItems, List.append_assoc, dropWs_indentAt, hh, List.cons_append,
        dropWs_cons_nonws _ _ hws]
  | cons y2 ys =>
      refine ⟨c, t ++ (',' :: '\n' :: renderItems d (JsonArr.cons y2 ys) ++ y), ?_, hws, hbr, hbc⟩
      rw [renderItems, List.append_assoc, List.append_assoc, dropWs_indentAt, hh,
        List.cons_append, dropWs_cons_nonws _ _ hws]

/-- After whitespace, a rendered non-empty member list starts with the
opening quote of its first key. -/
theorem dropWs_renderEntries (d : Nat) (k : String) (v : Json) (es : JsonObj)
    (y : List Char) :
    ∃ t, dropWs (renderEntries d (JsonObj.cons k v es) ++ y) = '"' :: t := by
  cases es with
  | nil =>
      refine ⟨escapeChars k.data ++ ['"'] ++ (':' :: ' ' :: renderVal (d + 1) v) ++ y, ?_⟩
      rw [renderEntries, strChars]
      simp only [List.append_assoc, List.cons_append]
      rw [dropWs_indentAt, dropWs_cons_nonws _ _ (by decide)]
  | cons k2 v2 es2 =>
      refine ⟨escapeChars k.data ++ ['"'] ++ (':' :: ' ' :: renderVal (d + 1) v) ++
        (',' :: '\n' :: renderEntries d (JsonObj.cons k2 v2 es2)) ++ y, ?_⟩
      rw [renderEntries, strChars]
      simp only [List.append_assoc, List.cons_append]
      rw [dropWs_indentAt, dropWs_cons_nonws _ _ (by decide)]

mutual

/-- Parsing a rendered value (at any depth, with enough fuel) recovers
it, leaving the remainder intact. -/
theorem rtVal : ∀ (j : Json) (d fuel : Nat) (rest : List Char),
    wfJson j = true → (renderVal d j).length < fuel → numStop rest = true →
    readVal fuel (renderVal d j ++ rest) = some (j, rest)
  | Json.null, d, fuel, rest, _, hf, _ => by
      cases fuel with
      | zero => exact absurd hf (Nat.not_lt_zero _)
      | succ f => simp [renderVal, readVal, dropWs, isJsonWs]
  | Json.bool true, d, fuel, rest, _, hf, _ => by
      cases fuel with
      | zero => exact absurd hf (Nat.not_lt_zero _)
      | succ f => simp [renderVal, readVal, dropWs, isJsonWs]
  | Json.bool false, d, fuel, rest, _, hf, _ => by
      cases fuel with
      | zero => exact absurd hf (Nat.not_lt_zero _)
      | succ f => simp [renderVal, readVal, dropWs, isJsonWs]
  | Json.int n, d, fuel, rest, _, hf, hr => by
      cases fuel with
      | zero => exact absurd hf (Nat.not_lt_zero _)
      | succ f => exact readVal_int f n rest hr
  | Json.str s, d, fuel, rest, _, hf, _ => by
      cases fuel with
      | zero => exact absurd hf (Nat.not_lt_zero _)
      | succ f =>
          have harg : renderVal d (Json.str s) ++ rest =
              '"' :: (escapeChars s.data ++ '"' :: rest) := by
            simp [renderVal, strChars]
          rw [harg]
          simp only [readVal]
          rw [dropWs_cons_nonws _ _ (by decide)]
          simp [readStrBody_escapeChars]
  | Json.arr JsonArr.nil, d, fuel, rest, _, hf, _ => by
      cases fuel with
      | zero => exact absurd hf (Nat.not_lt_zero _)
      | succ f =>
          have harg : renderVal d (Json.arr JsonArr.nil) ++ rest = '[' :: ']' :: rest := by
            simp [renderVal]
          rw [harg]
          simp [readVal, dropWs, isJsonWs]
  | Json.arr (JsonArr.cons x xs), d, fuel, rest, hwf, hf, _ => by
      cases fuel with
      | zero => exact absurd hf (Nat.not_lt_zero _)
      | succ f =>
          have hwf2 : wfArr (JsonArr.cons x xs) = true := by simpa [wfJson] using hwf
          have harg : renderVal d (Json.arr (JsonArr.cons x xs)) ++ rest =
              '[' :: ('\n' :: (renderItems d (JsonArr.cons x xs) ++
                '\n' :: (indentAt d ++ ']' :: rest))) := by
            simp [renderVal]
          have hlen : (renderItems d (JsonArr.cons x xs)).length + 1 < f := by
            have := hf
            simp only [renderVal, List.length_cons, List.length_append, indentAt,
              List.length_replicate] at this
            omega
          obtain ⟨c, t, hct, hws, hbr, hbc⟩ :=
            dropWs_renderItems d x xs ('\n' :: (indentAt d ++ ']' :: rest))
          have hct2 : dropWs ('\n' :: (renderItems d (JsonArr.cons x xs) ++
              '\n' :: (indentAt d ++ ']' :: rest))) = c :: t := by
            rw [dropWs_cons_ws _ _ (by decide), hct]
          rw [harg, readVal_arr_branch f _ c t hct2 hbr,
            readItems_congr f _ (renderItems d (JsonArr.cons x xs) ++
              '\n' :: (indentAt d ++ ']' :: rest)) (dropWs_cons_ws _ _ (by decide)),
            rtItems x xs d f rest hwf2 hlen]
  | Json.obj JsonObj.nil, d, fuel, rest, _, hf, _ => by
      cases fuel with
      | zero => exact absurd hf (Nat.not_lt_zero _)
      | succ f =>
          have harg : renderVal d (Json.obj JsonObj.nil) ++ rest = '{' :: '}' :: rest := by
            simp [renderVal]
          rw [harg]
          simp [readVal, dropWs, isJsonWs]
  | Json.obj (JsonObj.cons k v es), d, fuel, rest, hwf, hf, _ => by
      cases fuel with
      | zero => exact absurd hf (Nat.not_lt_zero _)
      | succ f =>
          have hwf2 : keysFresh (JsonObj.cons k v es) = true ∧
              wfObj (JsonObj.cons k v es) = true := by
            simpa [wfJson, Bool.and_eq_true] using hwf
          have harg : renderVal d (Json.obj (JsonObj.cons k v es)) ++ rest =
              '{' :: ('\n' :: (renderEntries d (JsonObj.cons k v es) ++
                '\n' :: (indentAt d ++ '}' :: rest))) := by
            simp [renderVal]
          have hlen : (renderEntries d (JsonObj.cons k v es)).length + 1 < f := by
            have := hf
            simp only [renderVal, List.length_cons, List.length_append, indentAt,
              List.length_replicate] at this
            omega
          obtain ⟨t, hct⟩ :=
            dropWs_renderEntries d k v es ('\n' :: (indentAt d ++ '}' :: rest))
          have hct2 : dropWs ('\n' :: (renderEntries d (JsonObj.cons k v es) ++
              '\n' :: (indentAt d ++ '}' :: rest))) = '"' :: t := by
            rw [dropWs_cons_ws _ _ (by decide), hct]
          rw [harg, readVal_obj_branch f _ '"' t hct2 (by decide),
            readEntries_congr f _ (renderEntries d (JsonObj.cons k v es) ++
              '\n' :: (indentAt d ++ '}' :: rest)) (dropWs_cons_ws _ _ (by decide)),
            rtEntries k v es d f rest hwf2.2 hlen]
          simp [pyDictOf_toPairs _ hwf2.1]
  termination_by j _ _ _ _ _ _ => sizeOf j

/-- Parsing the rendered items of a non-empty array, followed by the
newline-indent-bracket epilogue, recovers the item spine. -/
theorem rtItems : ∀ (x : Json) (xs : JsonArr) (d fuel : Nat) (rest : List Char),
    wfArr (JsonArr.cons x xs) = true →
    (renderItems d (JsonArr.cons x xs)).length + 1 < fuel →
    readItems fuel (renderItems d (JsonArr.cons x xs) ++
        '\n' :: (indentAt d ++ ']' :: rest)) =
      some (JsonArr.cons x xs, rest)
  | x, JsonArr.nil, d, fuel, rest, hwf, hf => by
      cases fuel with
      | zero => exact absurd hf (Nat.not_lt_zero _)
      | succ f =>
          have hwx : wfJson x = true := by simpa [wfArr] using hwf
          have hfx : (renderVal (d + 1) x).length < f := by
            simp only [renderItems, List.length_append, indentAt, List.length_replicate] at hf
            omega
          have harg : renderItems d (JsonArr.cons x JsonArr.nil) ++
              '\n' :: (indentAt d ++ ']' :: rest) =
              indentAt (d + 1) ++ (renderVal (d + 1) x ++
                '\n' :: (indentAt d ++ ']' :: rest)) := by
            rw [renderItems, List.append_assoc]
          rw [harg]
          simp only [readItems]
          rw [readVal_congr f _ (renderVal (d + 1) x ++ '\n' :: (indentAt d ++ ']' :: rest))
              (dropWs_indentAt _ _),
            rtVal x (d + 1) f _ hwx hfx (by rfl)]
          have hdw : dropWs ('\n' :: (indentAt d ++ ']' :: rest)) = ']' :: rest := by
            rw [dropWs_cons_ws _ _ (by decide), dropWs_indentAt,
              dropWs_cons_nonws _ _ (by decide)]
          dsimp only
          rw [hdw]
          rfl
  | x, JsonArr.cons y ys, d, fuel, rest, hwf, hf => by
      cases fuel with
      | zero => exact absurd hf (Nat.not_lt_zero _)
      | succ f =>
          have hwx : wfJson x = true ∧ wfArr (JsonArr.cons y ys) = true := by
            simpa [wfArr, Bool.and_eq_true] using hwf
          have hfx : (renderVal (d + 1) x).length < f ∧
              (renderItems d (JsonArr.cons y ys)).length + 1 < f := by
            simp only [renderItems, List.length_append, indentAt, List.length_replicate,
              List.length_cons] at hf ⊢
            omega
          have harg : renderItems d (JsonArr.cons x (JsonArr.cons y ys)) ++
              '\n' :: (indentAt d ++ ']' :: rest) =
              indentAt (d + 1) ++ (renderVal (d + 1) x ++
                ',' :: '\n' :: (renderItems d (JsonArr.cons y ys) ++
                  '\n' :: (indentAt d ++ ']' :: rest))) := by
            rw [renderItems]
            simp [List.append_assoc]
          rw [harg]
          simp only [readItems]
          rw [readVal_congr f _ (renderVal (d + 1) x ++
              ',' :: '\n' :: (renderItems d (JsonArr.cons y ys) ++
                '\n' :: (indentAt d ++ ']' :: rest))) (dropWs_indentAt _ _),
            rtVal x (d + 1) f _ hwx.1 hfx.1 (by rfl)]
          dsimp only
          rw [show dropWs (',' :: '\n' :: (renderItems d (JsonArr.cons y ys) ++
              '\n' :: (indentAt d ++ ']' :: rest))) = ',' :: '\n' ::
                (renderItems d (JsonArr.cons y ys) ++ '\n' :: (indentAt d ++ ']' :: rest))
            from dropWs_cons_nonws _ _ (by decide)]
          have hri : readItems f ('\n' :: (renderItems d (JsonArr.cons y ys) ++
              '\n' :: (indentAt d ++ ']' :: rest))) = some (JsonArr.cons y ys, rest) := by
            rw [readItems_congr f ('\n' :: (renderItems d (JsonArr.cons y ys) ++
                '\n' :: (indentAt d ++ ']' :: rest)))
                (renderItems d (JsonArr.cons y ys) ++ '\n' :: (indentAt d ++ ']' :: rest))
                (dropWs_cons_ws _ _ (by decide)),
              rtItems y ys d f rest hwx.2 hfx.2]
          simp [hri]
  termination_by x xs _ _ _ _ _ => sizeOf x + sizeOf xs

/-- Parsing the rendered members of a non-empty object, followed by the
newline-indent-brace epilogue, recovers the member pairs. -/
theorem rtEntries : ∀ (k : String) (v : Json) (es : JsonObj) (d fuel : Nat)
      (rest : List Char),
    wfObj (JsonObj.cons k v es) = true →
    (renderEntries d (JsonObj.cons k v es)).length + 1 < fuel →
    readEntries fuel (renderEntries d (JsonObj.cons k v es) ++
        '\n' :: (indentAt d ++ '}' :: rest)) =
      some (JsonObj.toPairs (JsonObj.cons k v es), rest)
  | k, v, JsonObj.nil, d, fuel, rest, hwf, hf => by
      cases fuel with
      | zero => exact absurd hf (Nat.not_lt_zero _)
      | succ f =>
          have hwv : wfJson v = true := by simpa [wfObj] using hwf
          have hfv : (renderVal (d + 1) v).length < f := by
            simp only [renderEntries, List.length_append, indentAt, List.length_replicate,
              List.length_cons, strChars] at hf
            omega
          have harg : renderEntries d (JsonObj.cons k v JsonObj.nil) ++
              '\n' :: (indentAt d ++ '}' :: rest) =
              indentAt (d + 1) ++ ('"' :: (escapeChars k.data ++
                '"' :: (':' :: (' ' :: (renderVal (d + 1) v ++
                  '\n' :: (indentAt d ++ '}' :: rest)))))) := by
            rw [renderEntries, strChars]
            simp [List.append_assoc]
          rw [harg]
          simp only [readEntries]
          rw [dropWs_indentAt, dropWs_cons_nonws _ _ (by decide)]
          have hv : readVal f (' ' :: (renderVal (d + 1) v ++
              '\n' :: (indentAt d ++ '}' :: rest))) =
              some (v, '\n' :: (indentAt d ++ '}' :: rest)) := by
            rw [readVal_congr f (' ' :: (renderVal (d + 1) v ++
                '\n' :: (indentAt d ++ '}' :: rest)))
                (renderVal (d + 1) v ++ '\n' :: (indentAt d ++ '}' :: rest))
                (dropWs_cons_ws _ _ (by decide)),
              rtVal v (d + 1) f _ hwv hfv (by rfl)]
          have hdw2 : dropWs ('\n' :: (indentAt d ++ '}' :: rest)) = '}' :: rest := by
            rw [dropWs_cons_ws _ _ (by decide), dropWs_indentAt,
              dropWs_cons_nonws _ _ (by decide)]
          have hdw3 : dropWs (':' :: (' ' :: (renderVal (d + 1) v ++
              '\n' :: (indentAt d ++ '}' :: rest)))) =
              ':' :: (' ' :: (renderVal (d + 1) v ++
                '\n' :: (indentAt d ++ '}' :: rest))) :=
            dropWs_cons_nonws _ _ (by decide)
          simp [readStrBody_escapeChars, hdw3, hv, hdw2, JsonObj.toPairs]
  | k, v, JsonObj.cons k2 v2 es2, d, fuel, rest, hwf, hf => by
      cases fuel with
      | zero => exact absurd hf (Nat.not_lt_zero _)
      | succ f =>
          have hwv : wfJson v = true ∧ wfObj (JsonObj.cons k2 v2 es2) = true := by
            simpa [wfObj, Bool.and_eq_true] using hwf
          have hfv : (renderVal (d + 1) v).length < f ∧
              (renderEntries d (JsonObj.cons k2 v2 es2)).length + 1 < f := by
            simp only [renderEntries, List.length_append, indentAt, List.length_replicate,
              List.length_cons, strChars] at hf ⊢
            omega
          have harg : renderEntries d (JsonObj.cons k v (JsonObj.cons k2 v2 es2)) ++
              '\n' :: (indentAt d ++ '}' :: rest) =
              indentAt (d + 1) ++ ('"' :: (escapeChars k.data ++
                '"' :: (':' :: (' ' :: (renderVal (d + 1) v ++
                  ',' :: '\n' :: (renderEntries d (JsonObj.cons k2 v2 es2) ++
                    '\n' :: (indentAt d ++ '}' :: rest))))))) := by
            rw [renderEntries, strChars]
            simp [List.append_assoc]
          rw [harg]
          simp only [readEntries]
          rw [dropWs_indentAt, dropWs_cons_nonws _ _ (by decide)]
          have hv : readVal f (' ' :: (renderVal (d + 1) v ++
              ',' :: '\n' :: (renderEntries d (JsonObj.cons k2 v2 es2) ++
                '\n' :: (indentAt d ++ '}' :: rest)))) =
              some (v, ',' :: '\n' :: (renderEntries d (JsonObj.cons k2 v2 es2) ++
                '\n' :: (indentAt d ++ '}' :: rest))) := by
            rw [readVal_congr f (' ' :: (renderVal (d + 1) v ++
                ',' :: '\n' :: (renderEntries d (JsonObj.cons k2 v2 es2) ++
                  '\n' :: (indentAt d ++ '}' :: rest))))
                (renderVal (d + 1) v ++ ',' :: '\n' ::
                  (renderEntries d (JsonObj.cons k2 v2 es2) ++
                    '\n' :: (indentAt d ++ '}' :: rest)))
                (dropWs_cons_ws _ _ (by decide)),
              rtVal v (d + 1) f _ hwv.1 hfv.1 (by rfl)]
          have hee : readEntries f (',' :: '\n' ::
              (renderEntries d (JsonObj.cons k2 v2 es2) ++
                '\n' :: (indentAt d ++ '}' :: rest))).tail =
              some (JsonObj.toPairs (JsonObj.cons k2 v2 es2), rest) := by
            rw [List.tail_cons, readEntries_congr f ('\n' ::
                (renderEntries d (JsonObj.cons k2 v2 es2) ++
                  '\n' :: (indentAt d ++ '}' :: rest)))
                (renderEntries d (JsonObj.cons k2 v2 es2) ++
                  '\n' :: (indentAt d ++ '}' :: rest))
                (dropWs_cons_ws _ _ (by decide)),
              rtEntries k2 v2 es2 d f rest hwv.2 hfv.2]
          have hdw3 : dropWs (':' :: (' ' :: (renderVal (d + 1) v ++
              ',' :: '\n' :: (renderEntries d (JsonObj.cons k2 v2 es2) ++
                '\n' :: (indentAt d ++ '}' :: rest))))) =
              ':' :: (' ' :: (renderVal (d + 1) v ++
              ',' :: '\n' :: (renderEntries d (JsonObj.cons k2 v2 es2) ++
                '\n' :: (indentAt d ++ '}' :: rest)))) :=
            dropWs_cons_nonws _ _ (by decide)
          have hdw4 : dropWs (',' :: '\n' :: (renderEntries d (JsonObj.cons k2 v2 es2) ++
              '\n' :: (indentAt d ++ '}' :: rest))) =
              ',' :: '\n' :: (renderEntries d (JsonObj.cons k2 v2 es2) ++
                '\n' :: (indentAt d ++ '}' :: rest)) :=
            dropWs_cons_nonws _ _ (by decide)
          simp only [List.tail_cons] at hee
          simp [readStrBody_escapeChars, hdw3, hv, hdw4, hee, JsonObj.toPairs]
  termination_by _ v es _ _ _ _ _ => 1 + sizeOf v + sizeOf es

end

/-- C8: saving a valid configuration document with the Config Store and
loading it back returns a value equal to the original — `write_config`
then `read_config` round-trips for every well-formed document (every
object, at any depth, with distinct keys, as any document living in
Python dicts has). -/
theorem C8_config_roundtrip (config : Json) (h : wfJson config = true) :
    read_config (write_config config) = some config := by
  have hrt := rtVal config 0 ((renderVal 0 config).length + 1) [] h (by omega) rfl
  rw [List.append_nil] at hrt
  show json_loads (json_dumps config) = some config
  have hdef : json_loads (json_dumps config) =
      match readVal ((renderVal 0 config).length + 1) (renderVal 0 config) with
      | none => none
      | some (v, rest) => if dropWs rest = [] then some v else none := rfl
  rw [hdef, hrt]
  rfl

/-- C8 witness: the round trip at the concrete `cfgHome` document. -/
theorem C8_config_roundtrip_witness :
    read_config (write_config cfgHome) = some cfgHome :=
  C8_config_roundtrip cfgHome (by decide)

/-- The renderer prints what CPython's `json.dumps(v, indent=4)` prints,
byte for byte, on documents exercising nesting, separators, indentation
and the `ensure_ascii` escapes (short escapes, `\u00XX` controls, BMP
characters and an astral-plane surrogate pair). -/
theorem json_dumps_matches_cpython :
    json_dumps (jobj [("a", Json.int 1), ("b", jarr [Json.int 1, Json.int 2])]) =
      "\x7b\n    \"a\": 1,\n    \"b\": [\n        1,\n        2\n    ]\n\x7d" ∧
    json_dumps (jarr [Json.int 1,
        jobj [("x", Json.str "é€𝄞"), ("y", Json.null), ("z", Json.bool true)],
        Json.int (-7)]) =
      "[\n    1,\n    \x7b\n        \"x\": \"\\u00e9\\u20ac\\ud834\\udd1e\",\n        \"y\": null,\n        \"z\": true\n    \x7d,\n    -7\n]" ∧
    json_dumps (jobj [("s", Json.str "a\"b\\c\td\x05\x7f")]) =
      "\x7b\n    \"s\": \"a\\\"b\\\\c\\td\\u0005\\u007f\"\n\x7d" :=
  ⟨rfl, rfl, rfl⟩

/-- A concrete serialize-then-parse round trip with negative numbers,
booleans, null and non-ASCII text, evaluated by kernel reduction. -/
theorem json_roundtrip_sample :
    json_loads (json_dumps (jobj [("k", jarr [Json.int (-5), Json.bool true, Json.null]),
        ("m", jobj [("x", Json.str "é€𝄞
")])])) =
      some (jobj [("k", jarr [Json.int (-5), Json.bool true, Json.null]),
        ("m", jobj [("x", Json.str "é€𝄞
")])]) := by
  rfl
